import Mathlib

/-!
Verification development for the process-image synchronisation and event
dispatch engine of `revpimodio2` (file `modio.py`, class `RevPiModIO`).

The Python source is shallowly embedded: byte buffers become `List Nat`
(each entry one byte), the mutable manager object becomes an explicit
state record `St` threaded through the operations, exceptions become
`Except String`, and the event dispatcher's per-cycle body becomes a pure
step function on a dispatcher state.  Machine integers do not overflow in
any of the modelled code paths (counters and byte offsets are plain
Python ints), so `Nat`/`Int` are used directly.
-/

/-- Byte order tag of an I/O point (`_byteorder` in the source). -/
inductive BOrder
  | little
  | big
deriving DecidableEq, Repr

/-- Edge kind of an event registration (`RISING`, `FALLING`, `BOTH`). -/
inductive Edge
  | rising
  | falling
  | both
deriving DecidableEq, Repr

/-- An event registration: the tuple
`(func, edge, as_thread, delay, löschen)` appended by `reg_event`.
`fid` stands for the identity of the callback function, `delay` is in
milliseconds, `dedupe` is the fifth component (named `löschen` in the
source comment), used both to re-arm pending delayed entries and to
cancel them when the value reverts. -/
structure Reg where
  fid : Nat
  edge : Edge
  asThread : Bool
  delay : Nat
  dedupe : Bool
deriving DecidableEq, Repr

/-- An I/O point as the dispatcher sees it: name, byte slice
(half-open, relative to the device buffer), optional bit index
(`_bitaddress`, negative means whole-byte value) and byte order. -/
structure IOPoint where
  name : String
  slc : Nat × Nat
  bitaddress : Int
  byteorder : BOrder
deriving DecidableEq, Repr

/-- `l[a:b]` on a Python list / bytearray. -/
def getSlice (l : List Nat) (s : Nat × Nat) : List Nat :=
  (l.take s.2).drop s.1

/-- `l[a:b] = repl` on a Python bytearray (lengths always match in the
modelled code paths). -/
def setSlice (l : List Nat) (s : Nat × Nat) (repl : List Nat) : List Nat :=
  l.take s.1 ++ repl ++ l.drop s.2

/-- `int.from_bytes(bs, byteorder)`. -/
def fromBytes : BOrder → List Nat → Nat
  | BOrder.little, l => l.foldr (fun b acc => b + 256 * acc) 0
  | BOrder.big, l => l.foldl (fun acc b => 256 * acc + b) 0

/-- Modelled from the spec: the per-IO value accessor (`io_event.value`)
lives in the `io` module, which is not part of the analysed source; the
spec only fixes its bit/byte-range contract ("has a byte-range within
that device's buffer, an optional bit index (absent => whole-byte/
multi-byte value), a byte-order tag, ... a current-value accessor").
A bit point reads as the selected bit (0/1), any other point as the
integer held by its byte range. -/
def ioValue (pt : IOPoint) (buf : List Nat) : Nat :=
  let v := fromBytes pt.byteorder (getSlice buf pt.slc)
  if 0 ≤ pt.bitaddress then
    (if v.testBit pt.bitaddress.toNat then 1 else 0)
  else v

/-- A device (`devicemodule.Device`): identity, the exclusive-access flag
`_selfupdate`, the dispatcher baseline copy `_ba_datacp`, the live buffer
`_ba_devdata`, the ordered event registry `_dict_events`, and the byte
ranges used by the process-image channel (`_slc_devoff` is a global image
slice; `_slc_inp`/`_slc_mem`/`_slc_out` are device-local with their
global counterparts `_slc_inpoff`/`_slc_memoff`/`_slc_outoff`). -/
structure Dev where
  position : Int
  name : String
  selfupdate : Bool
  datacp : List Nat
  devdata : List Nat
  events : List (IOPoint × List Reg)
  slcDevoff : Nat × Nat
  slcInp : Nat × Nat
  slcInpoff : Nat × Nat
  slcMem : Nat × Nat
  slcMemoff : Nat × Nat
  slcOut : Nat × Nat
  slcOutoff : Nat × Nat
deriving DecidableEq, Repr

/-- The manager state of `RevPiModIO`: the device registry, the hardware
image bytes behind the file handle, the counters and the flags the
modelled operations touch.  `readFails` / `writeFails` / `flushFails`
model whether the corresponding file-handle syscall raises `IOError`. -/
structure St where
  devices : List Dev
  procimg : List Nat
  length : Nat
  ioerror : Nat
  maxioerrors : Nat
  monitoring : Bool
  looprunning : Bool
  lstRefresh : List Int
  refresh : Nat
  buffedwrite : Bool
  readFails : Bool
  writeFails : Bool
  flushFails : Bool
deriving Repr

/-- `self.device.__getitem__(p)`: positional device lookup. -/
def findDev (st : St) (p : Int) : Option Dev :=
  st.devices.find? (fun d => d.position = p)

/-- `RevPiModIO._gotioerror` (modio.py lines 266-280): increment the
shared error counter; if a non-zero maximum is configured and the counter
has reached it, raise the fatal `RuntimeError`; otherwise only a
`RuntimeWarning` is emitted and control returns to the caller. -/
def gotioerror (st : St) : Except String St :=
  let e := st.ioerror + 1
  if st.maxioerrors ≠ 0 ∧ st.maxioerrors ≤ e then
    Except.error "reach max io error count on process image"
  else
    Except.ok { st with ioerror := e }

/-- `self._myfh.seek(0); self._myfh.read(self._length)` on success. -/
def readBuff (st : St) : List Nat :=
  st.procimg.take st.length

/-- The per-device body of the `readprocimg` update loop
(modio.py lines 673-691): self-updating devices are skipped; in
monitoring mode the whole device range is taken from the bus, otherwise
only the input and memory ranges. -/
def readUpdate (monitoring : Bool) (buff : List Nat) (d : Dev) : Dev :=
  if d.selfupdate then d
  else if monitoring then
    { d with devdata := getSlice buff d.slcDevoff }
  else
    let b1 := setSlice d.devdata d.slcInp (getSlice buff d.slcInpoff)
    let b2 := setSlice b1 d.slcMem (getSlice buff d.slcMemoff)
    { d with devdata := b2 }

/-- `RevPiModIO.readprocimg` (modio.py lines 643-691).  `device = none`
is the whole-image call (`mylist = self.device`); `device = some p`
resolves the device positionally, raising if it is in autorefresh.
Returns the boolean work result together with the successor state. -/
def readprocimg (st : St) (device : Option Int) : Except String (Bool × St) :=
  match device with
  | none =>
      if st.readFails then
        (gotioerror st).map (fun st' => (false, st'))
      else
        Except.ok (true,
          { st with devices :=
              st.devices.map (readUpdate st.monitoring (readBuff st)) })
  | some p =>
      match findDev st p with
      | none => Except.error "device not found"
      | some d =>
          if d.selfupdate then
            Except.error
              "can not read process image, while device is in autorefresh mode"
          else if st.readFails then
            (gotioerror st).map (fun st' => (false, st'))
          else
            Except.ok (true,
              { st with devices :=
                  st.devices.map (fun x =>
                    if x.position = p then
                      readUpdate st.monitoring (readBuff st) x
                    else x) })

/-- The per-device body of the `syncoutputs` update loop
(modio.py lines 747-752): the output range of each non-self-updating
device buffer is loaded from the bus image. -/
def syncUpdate (buff : List Nat) (d : Dev) : Dev :=
  if d.selfupdate then d
  else { d with devdata := setSlice d.devdata d.slcOut (getSlice buff d.slcOutoff) }

/-- `RevPiModIO.syncoutputs` (modio.py lines 718-753). -/
def syncoutputs (st : St) (device : Option Int) : Except String (Bool × St) :=
  match device with
  | none =>
      if st.readFails then
        (gotioerror st).map (fun st' => (false, st'))
      else
        Except.ok (true,
          { st with devices := st.devices.map (syncUpdate (readBuff st)) })
  | some p =>
      match findDev st p with
      | none => Except.error "device not found"
      | some d =>
          if d.selfupdate then
            Except.error
              "can not sync process image, while device is in autorefresh mode"
          else if st.readFails then
            (gotioerror st).map (fun st' => (false, st'))
          else
            Except.ok (true,
              { st with devices :=
                  st.devices.map (fun x =>
                    if x.position = p then syncUpdate (readBuff st) x else x) })

/-- The `writeprocimg` device loop (modio.py lines 784-795): for every
non-self-updating device, seek to its output offset and write its output
bytes; an `IOError` clears `workokay`.  The result is
(workokay, updated hardware image, positions where a write was
attempted). -/
def writeStep (writeFails : Bool) (acc : Bool × List Nat × List Int) (d : Dev) :
    Bool × List Nat × List Int :=
  if d.selfupdate then acc
  else if writeFails then
    (false, acc.2.1, acc.2.2 ++ [d.position])
  else
    (acc.1, setSlice acc.2.1 d.slcOutoff (getSlice d.devdata d.slcOut),
      acc.2.2 ++ [d.position])

def writeFold (writeFails : Bool) (img0 : List Nat) (devs : List Dev) :
    Bool × List Nat × List Int :=
  devs.foldl (writeStep writeFails) (true, img0, [])

/-- `RevPiModIO.writeprocimg` (modio.py lines 755-806): refuses in
monitoring mode, refuses a targeted self-updating device, writes the
output region of every non-self-updating device of the worklist, flushes
when in buffered-write mode, and routes a failed pass through
`_gotioerror` before returning `workokay`. -/
def writeprocimg (st : St) (device : Option Int) :
    Except String (Bool × St × List Int) :=
  if st.monitoring then
    Except.error "can not write process image, while system is in monitoring mode"
  else
    match device with
    | none =>
        let r := writeFold st.writeFails st.procimg st.devices
        let ok1 := if st.buffedwrite then (r.1 && !st.flushFails) else r.1
        if ok1 then
          Except.ok (true, { st with procimg := r.2.1 }, r.2.2)
        else
          (gotioerror { st with procimg := r.2.1 }).map
            (fun st' => (false, st', r.2.2))
    | some p =>
        match findDev st p with
        | none => Except.error "device not found"
        | some d =>
            if d.selfupdate then
              Except.error
                "can not write process image, while device is in autorefresh mode"
            else
              let r := writeFold st.writeFails st.procimg [d]
              let ok1 := if st.buffedwrite then (r.1 && !st.flushFails) else r.1
              if ok1 then
                Except.ok (true, { st with procimg := r.2.1 }, r.2.2)
              else
                (gotioerror { st with procimg := r.2.1 }).map
                  (fun st' => (false, st', r.2.2))

/-- One observable step of the `exit(full=True)` teardown loop. -/
inductive ExitOp
  | mark (p : Int)
  | write (p : Int)
deriving DecidableEq, Repr

/-- `dev._selfupdate = False` for the device popped at position `p`. -/
def markDev (p : Int) (x : Dev) : Dev :=
  if x.position = p then { x with selfupdate := false } else x

/-- The `while len(self._lst_refresh) > 0` teardown loop of
`RevPiModIO.exit` (modio.py lines 409-413), processing the popped
positions in order (Python `list.pop()` takes the last element): clear
the device's `_selfupdate` flag, then — unless monitoring — run one
targeted `writeprocimg` for it. -/
def exitLoop (st : St) : List Int → Except String (St × List ExitOp)
  | [] => Except.ok (st, [])
  | p :: rest =>
      let st1 := { st with devices := st.devices.map (markDev p) }
      if st1.monitoring then
        (exitLoop st1 rest).map
          (fun (r : St × List ExitOp) => (r.1, ExitOp.mark p :: r.2))
      else
        match writeprocimg st1 (some p) with
        | Except.error e => Except.error e
        | Except.ok (_, st2, tr) =>
            (exitLoop st2 rest).map
              (fun (r : St × List ExitOp) =>
                (r.1, ExitOp.mark p :: (tr.map ExitOp.write ++ r.2)))

/-- `RevPiModIO.exit(full=True)` (modio.py lines 392-414), restricted to
its device-teardown effect: the refresh list is drained from the back,
every drained device is un-flagged and (outside monitoring) written one
last time, and finally `_looprunning` is cleared.  The imgwriter
stop/join is an external-thread effect with no observable state here. -/
def exitFull (st : St) : Except String (St × List ExitOp) :=
  (exitLoop { st with lstRefresh := [] } st.lstRefresh.reverse).map
    (fun r => ({ r.1 with looprunning := false }, r.2))

/-- Entry checks and state transition of `RevPiModIO.cycleloop`
(modio.py lines 345-366): a second loop, an empty refresh list and a
non-callable function each raise before any state is touched; on success
the optional cycletime is adopted and `_looprunning` is set. -/
def cycleloopEntry (st : St) (callable : Bool) (cycletime : Option Nat) :
    Except String St :=
  if st.looprunning then
    Except.error "can not start multiple loops mainloop/cycleloop"
  else if st.lstRefresh.length = 0 then
    Except.error "no device with autorefresh activated"
  else if !callable then
    Except.error "registered function is not callable"
  else
    let st1 :=
      match cycletime with
      | none => st
      | some ms => if ms = st.refresh then st else { st with refresh := ms }
    Except.ok { st1 with looprunning := true }

/-- Entry checks and state transition of `RevPiModIO.mainloop`
(modio.py lines 499-527, blocking path): a second loop and an empty
refresh list each raise before any state is touched; on success
`_looprunning` is set and every refresh device's baseline copy is
captured from its live buffer. -/
def mainloopEntry (st : St) : Except String St :=
  if st.looprunning then
    Except.error "can not start multiple loops mainloop/cycleloop"
  else if st.lstRefresh.length = 0 then
    Except.error "no device with autorefresh activated"
  else
    Except.ok
      { st with
          looprunning := true
          devices :=
            st.devices.map (fun d =>
              if st.lstRefresh.contains d.position then
                { d with datacp := d.devdata }
              else d) }

/-- `math.ceil(a / b)` for the positive integers that occur in the
delay computation. -/
def ceilDiv (a b : Nat) : Nat :=
  (a + b - 1) / b

/-- One step of the Device Address Map accumulation
(modio.py lines 179-184): the device's effective offset is its declared
offset unless the accumulated length is already past it, and the
accumulated length advances by the device length from the effective
offset. -/
def placeStep (acc : Nat) (d : Nat × Nat) : Nat × Nat :=
  let eff := if acc < d.1 then d.1 else acc
  (eff, eff + d.2)

/-- The Device Address Map over a list of `(declared offset, length)`
descriptors in processing order: the effective offsets and the final
accumulated image length (`self._length`). -/
def placeDevices : List (Nat × Nat) → Nat → List Nat × Nat
  | [], acc => ([], acc)
  | d :: ds, acc =>
      let s := placeStep acc d
      let r := placeDevices ds s.2
      (s.1 :: r.1, r.2)

/-- Declared device ranges are pairwise non-overlapping. -/
def NonOverlapping (l : List (Nat × Nat)) : Prop :=
  l.Pairwise (fun a b => a.1 + a.2 ≤ b.1 ∨ b.1 + b.2 ≤ a.1)

/-- A fire tuple `(regfunc, io_name, io_value)` as appended to
`lst_fire` and used as key of `dict_delay`. -/
abbrev Fire := Reg × String × Nat

/-- The delayed-event table `dict_delay`, an insertion-ordered map from
fire tuples to remaining-cycle countdowns (Python dicts preserve
insertion order; assignment to an existing key keeps its position). -/
abbrev DelayMap := List (Fire × Nat)

/-- `k in dict_delay`. -/
def dmMem (m : DelayMap) (k : Fire) : Bool :=
  m.any (fun e => e.1 = k)

/-- `dict_delay[k] = v`: replace in place when present, append when
new. -/
def dmSet (m : DelayMap) (k : Fire) (v : Nat) : DelayMap :=
  if dmMem m k then
    m.map (fun e => if e.1 = k then (k, v) else e)
  else m ++ [(k, v)]

/-- The membership test `regfunc not in dict_delay` of the non-bit
branch (modio.py line 593) compares the 5-tuple registration against the
3-tuple keys of `dict_delay`; Python tuples of different lengths are
never equal, so the tested membership never holds. -/
def regfuncMem (_ : Reg) (_ : DelayMap) : Bool :=
  false

/-- `boolcp` / `boolor`: the baseline and live value of the event bit
(modio.py lines 555-562). -/
def bitOf (pt : IOPoint) (buf : List Nat) : Bool :=
  (fromBytes pt.byteorder (getSlice buf pt.slc)).testBit pt.bitaddress.toNat

/-- The edge-match test of modio.py lines 568-570:
`regfunc[1] == BOTH or regfunc[1] == RISING and boolor or
regfunc[1] == FALLING and not boolor`. -/
abbrev matchEdge (r : Reg) (boolor : Bool) : Prop :=
  r.edge = Edge.both ∨ (r.edge = Edge.rising ∧ boolor = true) ∨
    (r.edge = Edge.falling ∧ boolor = false)

/-- The per-registration body for a bit point (modio.py lines 567-584):
a matching registration with delay 0 enqueues an immediate firing,
otherwise the delayed entry is inserted/updated subject to the dedupe
rule `regfunc[4] or tupfire not in dict_delay`. -/
def regStepBit (refresh : Nat) (devdata : List Nat) (pt : IOPoint)
    (boolor : Bool) (a : List Fire × DelayMap) (r : Reg) :
    List Fire × DelayMap :=
  if matchEdge r boolor then
    if r.delay = 0 then
      (a.1 ++ [(r, pt.name, ioValue pt devdata)], a.2)
    else
      let tupfire : Fire := (r, pt.name, ioValue pt devdata)
      if r.dedupe = true ∨ dmMem a.2 tupfire = false then
        (a.1, dmSet a.2 tupfire (ceilDiv r.delay refresh))
      else a
  else a

/-- The per-registration body for a non-bit point
(modio.py lines 586-598): every registration fires on any byte
difference; the delayed-entry guard tests `regfunc not in dict_delay`,
which never holds (see `regfuncMem`). -/
def regStepNoBit (refresh : Nat) (devdata : List Nat) (pt : IOPoint)
    (a : List Fire × DelayMap) (r : Reg) : List Fire × DelayMap :=
  if r.delay = 0 then
    (a.1 ++ [(r, pt.name, ioValue pt devdata)], a.2)
  else
    if r.dedupe = true ∨ regfuncMem r a.2 = false then
      (a.1, dmSet a.2 (r, pt.name, ioValue pt devdata)
        (ceilDiv r.delay refresh))
    else a

/-- The per-I/O-point body of the mainloop diff pass
(modio.py lines 550-598), threading `(lst_fire, dict_delay)`:
skip when the point's byte slice is unchanged; for a bit point extract
both bit values, skip when equal, and run the matching registrations;
for a non-bit point every registration fires on any byte difference
regardless of edge. -/
def scanPoint (refresh : Nat) (datacp devdata : List Nat) (pt : IOPoint)
    (regs : List Reg) (acc : List Fire × DelayMap) : List Fire × DelayMap :=
  if getSlice datacp pt.slc = getSlice devdata pt.slc then acc
  else if 0 ≤ pt.bitaddress then
    if bitOf pt devdata = bitOf pt datacp then acc
    else regs.foldl (regStepBit refresh devdata pt (bitOf pt devdata)) acc
  else
    regs.foldl (regStepNoBit refresh devdata pt) acc

/-- The per-device body of the mainloop diff pass
(modio.py lines 542-603): a device with no registered events or an
unchanged buffer is skipped (its baseline copy is then also not
refreshed); otherwise all its points are scanned and the baseline copy
is refreshed to the live buffer. -/
def scanDev (refresh : Nat) (acc : List Fire × DelayMap) (d : Dev) :
    (List Fire × DelayMap) × Dev :=
  if d.events = [] ∨ d.datacp = d.devdata then (acc, d)
  else
    let acc' := d.events.foldl
      (fun a pr => scanPoint refresh d.datacp d.devdata pr.1 pr.2 a) acc
    (acc', { d with datacp := d.devdata })

/-- The diff pass over all refresh devices, in list order. -/
def scanAll (refresh : Nat) (devs : List Dev) (acc : List Fire × DelayMap) :
    (List Fire × DelayMap) × List Dev :=
  devs.foldl
    (fun (s : (List Fire × DelayMap) × List Dev) d =>
      let r := scanDev refresh s.1 d
      (r.1, s.2 ++ [r.2]))
    (acc, [])

/-- Modelled from the spec: `getattr(self.io, name)` resolves an I/O
point by its stable name in the global I/O registry (`IOList`, in the
`io` module outside the analysed source); here a point is found among
the device event registries together with its owning device's live
buffer ("I/O points are never owned by more than one device"). -/
def ioByName (devs : List Dev) (n : String) : Option (IOPoint × List Nat) :=
  match devs with
  | [] => none
  | d :: rest =>
      match d.events.find? (fun pr => pr.1.name = n) with
      | some pr => some (pr.1, d.devdata)
      | none => ioByName rest n

/-- The current live value of the named I/O point
(`getattr(self.io, name).value`). -/
def currentVal (devs : List Dev) (n : String) : Nat :=
  match ioByName devs n with
  | some pr => ioValue pr.1 pr.2
  | none => 0

/-- The per-entry body of the delayed-event pass
(modio.py lines 613-622): cancel the entry when its dedupe flag is set
and the point's current value differs from the captured value; otherwise
decrement the countdown and, on reaching zero, move the entry to the
firing list. -/
def pdStep (devs : List Dev) (acc : DelayMap × List Fire) (e : Fire × Nat) :
    DelayMap × List Fire :=
  if e.1.1.dedupe = true ∧ currentVal devs e.1.2.1 ≠ e.1.2.2 then acc
  else if e.2 - 1 = 0 then (acc.1, acc.2 ++ [e.1])
  else (acc.1 ++ [(e.1, e.2 - 1)], acc.2)

/-- The delayed-event pass of the mainloop (modio.py lines 612-622). -/
def processDelay (devs : List Dev) (m : DelayMap) : DelayMap × List Fire :=
  m.foldl (pdStep devs) ([], [])

/-- One full iteration of the mainloop body (modio.py lines 530-638)
after fresh data arrived: diff pass, delayed-event pass, then draining
`lst_fire` from the back (`lst_fire.pop()`), so callbacks are dispatched
most-recently-enqueued first.  Returns the updated devices, the updated
delayed-event table and the dispatched fire tuples in dispatch order. -/
def mainloopCycle (refresh : Nat) (devs : List Dev) (m : DelayMap) :
    List Dev × DelayMap × List Fire :=
  let s := scanAll refresh devs ([], m)
  let pd := processDelay s.2 s.1.2
  (s.2, pd.1, (s.1.1 ++ pd.2).reverse)

/-- The refresh coordinator handing the foreground loop fresh device
data: each refresh device's live buffer is replaced by this cycle's
bytes. -/
def applyInput (devs : List Dev) (ins : List (List Nat)) : List Dev :=
  devs.zipWith (fun d b => { d with devdata := b }) ins

/-- Run the mainloop for one cycle per input element: the input gives
every device's fresh live buffer for that cycle.  Returns the final
devices and delayed-event table plus the per-cycle dispatched fire
tuples. -/
def runCycles (refresh : Nat) (devs : List Dev) (m : DelayMap) :
    List (List (List Nat)) → List Dev × DelayMap × List (List Fire)
  | [] => (devs, m, [])
  | ins :: rest =>
      let c := mainloopCycle refresh (applyInput devs ins) m
      let r := runCycles refresh c.1 c.2.1 rest
      (r.1, r.2.1, c.2.2 :: r.2.2)

/-- A device descriptor as far as duplicate-name handling is concerned
(`dev_new._position`, `dev_new._name`). -/
structure ConfDev where
  position : Int
  name : String
deriving DecidableEq, Repr

/-- Modelled from the spec: `DeviceList` name access (in the `device`
module outside the analysed source) is plain Python attribute access —
`hasattr` tests presence, `setattr` binds or overwrites, `delattr`
removes a present attribute and raises `AttributeError` for an absent
one; positional lookup is an independent mapping.  Here the name table
is an association list from name to position. -/
def dlHas (m : List (String × Int)) (n : String) : Bool :=
  m.any (fun e => e.1 = n)

/-- Modelled from the spec: `setattr(self.device, name, dev)`. -/
def dlSet (m : List (String × Int)) (n : String) (p : Int) :
    List (String × Int) :=
  if dlHas m n then m.map (fun e => if e.1 = n then (n, p) else e)
  else m ++ [(n, p)]

/-- Modelled from the spec: `delattr(self.device, name)`; raises
`AttributeError` when the attribute is absent. -/
def dlDel (m : List (String × Int)) (n : String) :
    Except String (List (String × Int)) :=
  if dlHas m n then Except.ok (m.filter (fun e => e.1 ≠ n))
  else Except.error "AttributeError"

/-- The duplicate-name cleanup loop (modio.py lines 193-201): one
`delattr` plus one warning per recorded duplicate name.  Returns the
remaining name table and the number of warnings emitted. -/
def delNames (m : List (String × Int)) :
    List String → Except String (List (String × Int) × Nat)
  | [] => Except.ok (m, 0)
  | n :: rest =>
      match dlDel m n with
      | Except.error e => Except.error e
      | Except.ok m' =>
          (delNames m' rest).map
            (fun (r : List (String × Int) × Nat) => (r.1, r.2 + 1))

/-- The name-registration part of `RevPiModIO._configure`
(modio.py lines 141-201) over the already position-sorted descriptors:
record every name that is already bound (`err_names.append`), bind the
name (`setattr`, overwriting), collect the positional registry, then run
the duplicate-name cleanup.  Returns the name table, the positional
registry and the number of duplicate-name warnings. -/
def configureNames (devs : List ConfDev) :
    Except String (List (String × Int) × List Int × Nat) :=
  let f := devs.foldl
    (fun (acc : List (String × Int) × List String × List Int) d =>
      let errs := if dlHas acc.1 d.name then acc.2.1 ++ [d.name] else acc.2.1
      (dlSet acc.1 d.name d.position, errs, acc.2.2 ++ [d.position]))
    ([], [], [])
  (delNames f.1 f.2.1).map
    (fun (r : List (String × Int) × Nat) => (r.1, f.2.2, r.2))

lemma placeDevices_nil (acc : Nat) : placeDevices [] acc = ([], acc) := rfl

lemma placeDevices_cons (d : Nat × Nat) (ds : List (Nat × Nat)) (acc : Nat) :
    placeDevices (d :: ds) acc
      = ((placeStep acc d).1 :: (placeDevices ds (placeStep acc d).2).1,
        (placeDevices ds (placeStep acc d).2).2) := rfl

lemma placeStep_le (acc : Nat) (d : Nat × Nat) : acc ≤ (placeStep acc d).1 := by
  simp only [placeStep]
  split <;> omega

lemma placeStep_snd (acc : Nat) (d : Nat × Nat) :
    (placeStep acc d).2 = (placeStep acc d).1 + d.2 := rfl

lemma placeDevices_ge :
    ∀ (l : List (Nat × Nat)) (acc : Nat), ∀ e ∈ (placeDevices l acc).1, acc ≤ e := by
  intro l
  induction l with
  | nil => intro acc e he; simp [placeDevices_nil] at he
  | cons d ds ih =>
      intro acc e he
      rw [placeDevices_cons] at he
      rcases List.mem_cons.mp he with h | h
      · subst h; exact placeStep_le acc d
      · have h1 := ih (placeStep acc d).2 e h
        have h2 := placeStep_le acc d
        have h3 := placeStep_snd acc d
        omega

lemma placeDevices_chain :
    ∀ (l : List (Nat × Nat)) (acc : Nat), List.Chain' (· ≤ ·) (placeDevices l acc).1 := by
  intro l
  induction l with
  | nil => intro acc; simp [placeDevices_nil]
  | cons d ds ih =>
      intro acc
      rw [placeDevices_cons, List.chain'_cons']
      constructor
      · intro y hy
        have hmem := List.mem_of_mem_head? hy
        have h1 := placeDevices_ge ds (placeStep acc d).2 y hmem
        have h2 := placeStep_snd acc d
        omega
      · exact ih (placeStep acc d).2

lemma placeDevices_total :
    ∀ (l : List (Nat × Nat)) (acc : Nat), l ≠ [] →
      ∃ eff dl, (placeDevices l acc).1.getLast? = some eff ∧
        l.getLast? = some dl ∧ (placeDevices l acc).2 = eff + dl.2 := by
  intro l
  induction l with
  | nil => intro acc h; exact absurd rfl h
  | cons d ds ih =>
      intro acc _
      cases ds with
      | nil =>
          exact ⟨(placeStep acc d).1, d,
            by simp [placeDevices_cons, placeDevices_nil],
            rfl, by rw [placeDevices_cons, placeDevices_nil]; exact placeStep_snd acc d⟩
      | cons d2 t =>
          obtain ⟨eff, dl, h1, h2, h3⟩ := ih (placeStep acc d).2 (by simp)
          refine ⟨eff, dl, ?_, ?_, ?_⟩
          · rw [placeDevices_cons]
            rw [placeDevices_cons] at h1 ⊢
            rw [List.getLast?_cons_cons]
            exact h1
          · rw [List.getLast?_cons_cons]
            exact h2
          · rw [placeDevices_cons]
            exact h3

/-- C8: for a sequence of device descriptors with non-overlapping declared
ranges, processed in position order, each effective offset is the declared
offset unless the accumulated length is larger (then the accumulated length
is used), the effective offsets are monotonically non-decreasing, and the
total image length is the final device's effective offset plus its
length. -/
theorem c8_address_map (l : List (Nat × Nat)) (hno : NonOverlapping l)
    (hne : l ≠ []) :
    (∀ acc d, (placeStep acc d).1 = if acc < d.1 then d.1 else acc) ∧
    List.Chain' (· ≤ ·) (placeDevices l 0).1 ∧
    ∃ eff dl, (placeDevices l 0).1.getLast? = some eff ∧
      l.getLast? = some dl ∧ (placeDevices l 0).2 = eff + dl.2 :=
  ⟨fun _ _ => rfl, placeDevices_chain l 0, placeDevices_total l 0 hne⟩

/-- Witness for `c8_address_map` at a concrete non-overlapping descriptor
list. -/
theorem c8_address_map_witness :
    NonOverlapping [(0, 4), (4, 2), (10, 1)] ∧
    List.Chain' (· ≤ ·) (placeDevices [(0, 4), (4, 2), (10, 1)] 0).1 ∧
    (placeDevices [(0, 4), (4, 2), (10, 1)] 0).2 = 11 := by
  have hno : NonOverlapping [(0, 4), (4, 2), (10, 1)] := by
    unfold NonOverlapping
    refine List.Pairwise.cons ?_ (List.Pairwise.cons ?_ (List.pairwise_singleton _ _))
    · intro b hb
      rcases List.mem_cons.mp hb with h | h
      · subst h; omega
      · rcases List.mem_singleton.mp h with h
        subst h; omega
    · intro b hb
      rcases List.mem_singleton.mp hb with h
      subst h; omega
  exact ⟨hno, (c8_address_map [(0, 4), (4, 2), (10, 1)] hno (by decide)).2.1,
    by decide⟩

lemma writeFold_fst :
    ∀ (devs : List Dev) (acc : Bool × List Nat × List Int),
      (devs.foldl (writeStep true) acc).1
        = (acc.1 && devs.all (fun d => d.selfupdate)) := by
  intro devs
  induction devs with
  | nil => intro acc; simp
  | cons d t ih =>
      intro acc
      by_cases hs : d.selfupdate = true
      · simp [List.foldl_cons, List.all_cons, writeStep, hs, ih]
      · have hs' : d.selfupdate = false := by simpa using hs
        simp [List.foldl_cons, List.all_cons, writeStep, hs', ih]

lemma writeFold_all_false (img : List Nat) (devs : List Dev)
    (h : ∃ d, d ∈ devs ∧ d.selfupdate = false) :
    (writeFold true img devs).1 = false := by
  obtain ⟨d, hd, hsu⟩ := h
  have hall : devs.all (fun d => d.selfupdate) = false := by
    by_contra hc
    have : devs.all (fun d => d.selfupdate) = true := by
      cases hx : devs.all (fun d => d.selfupdate)
      · exact absurd hx hc
      · rfl
    have := List.all_eq_true.mp this d hd
    rw [hsu] at this
    exact Bool.false_ne_true this
  rw [writeFold, writeFold_fst, hall, Bool.and_false]

/-- C2: every process-image read/write failure increments the shared error
counter by one; when a non-zero configured maximum is reached the
operation raises the fatal condition (with max = 2, two consecutive read
failures raise on the 2nd, not the 1st); below the maximum (or with
max = 0, unlimited) it only warns and returns the boolean failure
indicator `False`. -/
theorem c2_error_counter (st : St) (hf : st.readFails = true) :
    ((st.maxioerrors = 0 ∨ st.ioerror + 1 < st.maxioerrors) →
      readprocimg st none = Except.ok (false, { st with ioerror := st.ioerror + 1 })) ∧
    (st.maxioerrors ≠ 0 → st.maxioerrors ≤ st.ioerror + 1 →
      readprocimg st none = Except.error "reach max io error count on process image") ∧
    (st.maxioerrors = 2 → st.ioerror = 0 →
      readprocimg st none = Except.ok (false, { st with ioerror := 1 }) ∧
      readprocimg { st with ioerror := 1 } none
        = Except.error "reach max io error count on process image") ∧
    (st.monitoring = false → st.writeFails = true → st.buffedwrite = false →
      (∃ d, d ∈ st.devices ∧ d.selfupdate = false) →
      ((st.maxioerrors = 0 ∨ st.ioerror + 1 < st.maxioerrors) →
        ∃ st' tr, writeprocimg st none = Except.ok (false, st', tr) ∧
          st'.ioerror = st.ioerror + 1) ∧
      (st.maxioerrors ≠ 0 → st.maxioerrors ≤ st.ioerror + 1 →
        ∃ m, writeprocimg st none = Except.error m)) := by
  have hread : ∀ s : St, s.readFails = true →
      readprocimg s none = (gotioerror s).map (fun st' => (false, st')) := by
    intro s hs
    simp [readprocimg, hs]
  refine ⟨?_, ?_, ?_, ?_⟩
  · intro h
    have hng : ¬(st.maxioerrors ≠ 0 ∧ st.maxioerrors ≤ st.ioerror + 1) := by omega
    rw [hread st hf]
    simp [gotioerror, hng, Except.map]
  · intro h1 h2
    rw [hread st hf]
    simp [gotioerror, h1, h2, Except.map]
  · intro h1 h2
    constructor
    · have hng : ¬(st.maxioerrors ≠ 0 ∧ st.maxioerrors ≤ st.ioerror + 1) := by omega
      rw [hread st hf]
      simp only [gotioerror, Except.map, if_neg hng]
      rw [h2]
    · rw [hread { st with ioerror := 1 } hf]
      have hg : ({ st with ioerror := 1 } : St).maxioerrors ≠ 0 ∧
          ({ st with ioerror := 1 } : St).maxioerrors ≤
            ({ st with ioerror := 1 } : St).ioerror + 1 := by
        constructor <;> simp [h1]
      simp only [gotioerror, Except.map, if_pos hg]
  · intro hm hw hb hdev
    have hwp : writeprocimg st none
        = (gotioerror { st with procimg := (writeFold st.writeFails st.procimg st.devices).2.1 }).map
            (fun st' => (false, st', (writeFold st.writeFails st.procimg st.devices).2.2)) := by
      have hko : (writeFold st.writeFails st.procimg st.devices).1 = false := by
        rw [hw]; exact writeFold_all_false st.procimg st.devices hdev
      simp [writeprocimg, hm, hb, hko]
    constructor
    · intro h
      have hng : ¬(st.maxioerrors ≠ 0 ∧ st.maxioerrors ≤ st.ioerror + 1) := by omega
      rw [hwp]
      simp only [gotioerror, Except.map, if_neg hng]
      exact ⟨_, _, rfl, rfl⟩
    · intro h1 h2
      rw [hwp]
      have hg : st.maxioerrors ≠ 0 ∧ st.maxioerrors ≤ st.ioerror + 1 := ⟨h1, h2⟩
      simp only [gotioerror, Except.map, if_pos hg]
      exact ⟨_, rfl⟩

/-- Witness for `c2_error_counter`: a concrete state with max-errors 2 on
which the first read failure only returns `False` with the counter at 1. -/
theorem c2_error_counter_witness :
    readprocimg
      { devices := [], procimg := [], length := 0, ioerror := 0,
        maxioerrors := 2, monitoring := false, looprunning := false,
        lstRefresh := [], refresh := 50, buffedwrite := false,
        readFails := true, writeFails := false, flushFails := false }
      none
    = Except.ok (false,
        { devices := [], procimg := [], length := 0, ioerror := 1,
          maxioerrors := 2, monitoring := false, looprunning := false,
          lstRefresh := [], refresh := 50, buffedwrite := false,
          readFails := true, writeFails := false, flushFails := false }) :=
  ((c2_error_counter _ rfl).2.2.1 rfl rfl).1

/-- C6: starting `cycleloop` or `mainloop` raises immediately — without
entering the running state or invoking user code — when another loop is
already running, when no device is under autorefresh, or (for cycleloop)
when the supplied function is not callable; a successful entry implies
all preconditions held. -/
theorem c6_loop_preconditions (st : St) (callable : Bool) (ct : Option Nat) :
    ((st.looprunning = true ∨ st.lstRefresh = [] ∨ callable = false) →
      ∃ msg, cycleloopEntry st callable ct = Except.error msg) ∧
    ((st.looprunning = true ∨ st.lstRefresh = []) →
      ∃ msg, mainloopEntry st = Except.error msg) ∧
    (∀ st', cycleloopEntry st callable ct = Except.ok st' →
      st.looprunning = false ∧ st.lstRefresh ≠ [] ∧ callable = true ∧
        st'.looprunning = true) ∧
    (∀ st', mainloopEntry st = Except.ok st' →
      st.looprunning = false ∧ st.lstRefresh ≠ [] ∧ st'.looprunning = true) := by
  refine ⟨?_, ?_, ?_, ?_⟩
  · intro h
    by_cases hl : st.looprunning = true
    · exact ⟨"can not start multiple loops mainloop/cycleloop",
        by simp [cycleloopEntry, hl]⟩
    · have hl' : st.looprunning = false := by simpa using hl
      by_cases hr : st.lstRefresh = []
      · exact ⟨"no device with autorefresh activated",
          by simp [cycleloopEntry, hl', hr]⟩
      · have hcb : callable = false := by
          rcases h with h | h | h
          · exact absurd h hl
          · exact absurd h hr
          · exact h
        have hlen : ¬st.lstRefresh.length = 0 := by
          simpa [List.length_eq_zero] using hr
        exact ⟨"registered function is not callable",
          by simp [cycleloopEntry, hl', hlen, hcb]⟩
  · intro h
    by_cases hl : st.looprunning = true
    · exact ⟨"can not start multiple loops mainloop/cycleloop",
        by simp [mainloopEntry, hl]⟩
    · have hl' : st.looprunning = false := by simpa using hl
      have hr : st.lstRefresh = [] := by
        rcases h with h | h
        · exact absurd h hl
        · exact h
      exact ⟨"no device with autorefresh activated",
        by simp [mainloopEntry, hl', hr]⟩
  · intro st' hok
    by_cases hl : st.looprunning = true
    · simp [cycleloopEntry, hl] at hok
    · have hl' : st.looprunning = false := by simpa using hl
      by_cases hr : st.lstRefresh.length = 0
      · simp [cycleloopEntry, hl', hr] at hok
      · by_cases hcb : callable = true
        · refine ⟨hl', by simpa [List.length_eq_zero] using hr, hcb, ?_⟩
          simp only [cycleloopEntry, hl'] at hok
          rw [if_neg hr] at hok
          rw [hcb] at hok
          simp only [Bool.not_true, Bool.false_eq_true, if_false] at hok
          have h := Except.ok.inj hok
          rw [← h]
        · have hcb' : callable = false := by simpa using hcb
          simp [cycleloopEntry, hl', hr, hcb'] at hok
  · intro st' hok
    by_cases hl : st.looprunning = true
    · simp [mainloopEntry, hl] at hok
    · have hl' : st.looprunning = false := by simpa using hl
      by_cases hr : st.lstRefresh.length = 0
      · simp [mainloopEntry, hl', hr] at hok
      · refine ⟨hl', by simpa [List.length_eq_zero] using hr, ?_⟩
        simp only [mainloopEntry, hl'] at hok
        rw [if_neg hr] at hok
        have h := Except.ok.inj hok
        rw [← h]

/-- A concrete manager state with a loop already running. -/
def stLoopBusy : St :=
  { devices := [], procimg := [], length := 0, ioerror := 0,
    maxioerrors := 0, monitoring := false, looprunning := true,
    lstRefresh := [], refresh := 50, buffedwrite := false,
    readFails := false, writeFails := false, flushFails := false }

/-- Witness for `c6_loop_preconditions`: starting a second loop on a
busy manager raises. -/
theorem c6_loop_preconditions_witness :
    ∃ msg, cycleloopEntry stLoopBusy true none = Except.error msg :=
  (c6_loop_preconditions stLoopBusy true none).1 (Or.inl rfl)

/-- C9: duplicate-name handling evaluated on concrete configurations.
With exactly two devices sharing name `A`, `_configure` completes:
name access to `A` is removed, both positions remain, one warning is
emitted.  With three devices sharing name `A`, the cleanup loop calls
`delattr` twice for `A` and the second call raises `AttributeError`,
so configuration does not complete — contradicting the claim that any
number of duplicates is recoverable. -/
theorem c9_duplicate_names_bug :
    configureNames [⟨1, "A"⟩, ⟨2, "A"⟩, ⟨3, "B"⟩]
      = Except.ok ([("B", 3)], [1, 2, 3], 1) ∧
    configureNames [⟨1, "A"⟩, ⟨2, "A"⟩, ⟨3, "A"⟩]
      = Except.error "AttributeError" := by
  constructor <;> rfl

/-- The op sequence the amended exit claim describes: per popped device,
a mark followed (outside monitoring) by one write. -/
def exitOpsSpec (monitoring : Bool) : List Int → List ExitOp
  | [] => []
  | p :: rest =>
      if monitoring then ExitOp.mark p :: exitOpsSpec monitoring rest
      else ExitOp.mark p :: ExitOp.write p :: exitOpsSpec monitoring rest

/-- `occursBefore a b ops` holds when some occurrence of `a` is followed,
strictly later, by an occurrence of `b`. -/
def occursBefore (a b : ExitOp) : List ExitOp → Bool
  | [] => false
  | x :: xs => if x = a then xs.contains b else occursBefore a b xs

lemma markDev_position (p : Int) (x : Dev) : (markDev p x).position = x.position := by
  unfold markDev
  split <;> rfl

lemma markDev_false (p : Int) (x : Dev) (h : x.selfupdate = false) :
    (markDev p x).selfupdate = false := by
  unfold markDev
  split <;> simpa

lemma findDev_map_pos (st : St) (f : Dev → Dev)
    (hf : ∀ x, (f x).position = x.position) (q : Int) :
    findDev { st with devices := st.devices.map f } q = (findDev st q).map f := by
  show (st.devices.map f).find? (fun d => d.position = q)
      = (st.devices.find? (fun d => d.position = q)).map f
  rw [List.find?_map]
  have hpred : ((fun (d : Dev) => decide (d.position = q)) ∘ f)
      = fun (d : Dev) => decide (d.position = q) := by
    funext x
    simp [Function.comp, hf x]
  rw [hpred]

lemma findDev_pos (st : St) (p : Int) (d : Dev) (h : findDev st p = some d) :
    d.position = p := by
  have := List.find?_some h
  simpa using this

lemma writeprocimg_some_ok (st : St) (p : Int) (d : Dev)
    (hfind : findDev st p = some d) (hsu : d.selfupdate = false)
    (hm : st.monitoring = false) (hw : st.writeFails = false)
    (hb : st.buffedwrite = false) :
    writeprocimg st (some p)
      = Except.ok (true,
          { st with procimg :=
              setSlice st.procimg d.slcOutoff (getSlice d.devdata d.slcOut) },
          [d.position]) := by
  simp [writeprocimg, hm, hfind, hsu, writeFold, writeStep, hw, hb]

lemma exitLoop_spec :
    ∀ (l : List Int) (st : St),
      st.writeFails = false → st.buffedwrite = false →
      (∀ p ∈ l, ∃ d, findDev st p = some d) →
      ∃ st', exitLoop st l = Except.ok (st', exitOpsSpec st.monitoring l) ∧
        st'.monitoring = st.monitoring ∧ st'.writeFails = st.writeFails ∧
        st'.buffedwrite = st.buffedwrite ∧ st'.lstRefresh = st.lstRefresh ∧
        st'.looprunning = st.looprunning ∧
        (∀ q e, findDev st q = some e → ∃ e', findDev st' q = some e' ∧
          e'.position = e.position ∧ (e.selfupdate = false → e'.selfupdate = false)) ∧
        (∀ p ∈ l, ∃ d, findDev st' p = some d ∧ d.selfupdate = false) := by
  intro l
  induction l with
  | nil =>
      intro st hw hb _
      refine ⟨st, rfl, rfl, rfl, rfl, rfl, rfl, ?_, ?_⟩
      · exact fun q e he => ⟨e, he, rfl, fun h => h⟩
      · intro p hp
        simp at hp
  | cons p rest ih =>
      intro st hw hb hdev
      obtain ⟨d, hd⟩ := hdev p (List.mem_cons_self p rest)
      have hdp : d.position = p := findDev_pos st p d hd
      have hmark : ∀ q, findDev { st with devices := st.devices.map (markDev p) } q
          = (findDev st q).map (markDev p) :=
        fun q => findDev_map_pos st (markDev p) (markDev_position p) q
      have hd1 : findDev { st with devices := st.devices.map (markDev p) } p
          = some (markDev p d) := by
        rw [hmark p, hd]
        rfl
      have hmd : markDev p d = { d with selfupdate := false } := by
        unfold markDev
        rw [if_pos hdp]
      have hdev1 : ∀ p' ∈ rest,
          ∃ d', findDev { st with devices := st.devices.map (markDev p) } p'
            = some d' := by
        intro p' hp'
        obtain ⟨d', hd'⟩ := hdev p' (List.mem_cons_of_mem p hp')
        exact ⟨markDev p d', by rw [hmark p', hd']; rfl⟩
      cases hm : st.monitoring with
      | true =>
          obtain ⟨st', hrec, h1, h2, h3, h4, h5, h6, h7⟩ :=
            ih { st with devices := st.devices.map (markDev p) } hw hb hdev1
          refine ⟨st', ?_, h1.trans hm, h2, h3, h4, h5, ?_, ?_⟩
          · show exitLoop st (p :: rest) = _
            simp only [exitLoop]
            rw [if_pos (show ({ st with devices := st.devices.map (markDev p) } : St).monitoring = true from hm)]
            rw [hrec]
            simp [Except.map, exitOpsSpec, hm]
          · intro q e he
            obtain ⟨e', he', hp1, hp2⟩ := h6 q (markDev p e) (by rw [hmark q, he]; rfl)
            exact ⟨e', he', hp1.trans (markDev_position p e),
              fun hf => hp2 (markDev_false p e hf)⟩
          · intro p' hp'
            rcases List.mem_cons.mp hp' with h | h
            · subst h
              obtain ⟨e', he', hp1, hp2⟩ := h6 p' (markDev p' d) hd1
              refine ⟨e', he', hp2 ?_⟩
              rw [hmd]
            · exact h7 p' h
      | false =>
          have hm1 : ({ st with devices := st.devices.map (markDev p) } : St).monitoring = false := hm
          have hwr := writeprocimg_some_ok
            { st with devices := st.devices.map (markDev p) } p (markDev p d)
            hd1 (by rw [hmd]) hm1 hw hb
          obtain ⟨st', hrec, h1, h2, h3, h4, h5, h6, h7⟩ :=
            ih { { st with devices := st.devices.map (markDev p) } with
                  procimg := setSlice
                    ({ st with devices := st.devices.map (markDev p) } : St).procimg
                    (markDev p d).slcOutoff
                    (getSlice (markDev p d).devdata (markDev p d).slcOut) }
              hw hb hdev1
          refine ⟨st', ?_, h1.trans hm, h2, h3, h4, h5, ?_, ?_⟩
          · show exitLoop st (p :: rest) = _
            simp only [exitLoop]
            rw [if_neg (show ¬({ st with devices := st.devices.map (markDev p) } : St).monitoring = true by rw [hm1]; simp)]
            rw [hwr]
            show (exitLoop _ rest).map _ = _
            rw [hrec]
            have hpos : (markDev p d).position = p := by
              rw [markDev_position p d, hdp]
            simp [Except.map, exitOpsSpec, hm, hpos]
          · intro q e he
            obtain ⟨e', he', hp1, hp2⟩ := h6 q (markDev p e) (by exact (hmark q).trans (by rw [he]; rfl))
            exact ⟨e', he', hp1.trans (markDev_position p e),
              fun hf => hp2 (markDev_false p e hf)⟩
          · intro p' hp'
            rcases List.mem_cons.mp hp' with h | h
            · subst h
              obtain ⟨e', he', hp1, hp2⟩ := h6 p' (markDev p' d) hd1
              refine ⟨e', he', hp2 ?_⟩
              rw [hmd]
            · exact h7 p' h

lemma exitOpsSpec_count_write (l : List Int) (p : Int) :
    (exitOpsSpec false l).count (ExitOp.write p) = l.count p := by
  induction l with
  | nil => rfl
  | cons q t ih =>
      simp only [exitOpsSpec, if_neg Bool.false_ne_true, List.count_cons, ih]
      by_cases hq : q = p
      · subst hq; simp
      · simp [hq]

lemma exitOpsSpec_count_write_mon (l : List Int) (p : Int) :
    (exitOpsSpec true l).count (ExitOp.write p) = 0 := by
  induction l with
  | nil => rfl
  | cons q t ih =>
      simp [exitOpsSpec, List.count_cons, ih]

lemma exitOpsSpec_before (l : List Int) (p : Int) (h : p ∈ l) :
    occursBefore (ExitOp.mark p) (ExitOp.write p) (exitOpsSpec false l) = true := by
  induction l with
  | nil => simp at h
  | cons q t ih =>
      by_cases hq : q = p
      · subst hq
        simp [exitOpsSpec, occursBefore]
      · have hpt : p ∈ t := by
          rcases List.mem_cons.mp h with h1 | h1
          · exact absurd h1.symm hq
          · exact h1
        simp [exitOpsSpec, occursBefore, hq, ih hpt]

/-- C5 (amended): `exit(full=True)` with devices under cyclic refresh
first marks each drained device no longer self-updating and only then
performs exactly one final output write for it (the source order — the
claim's "write, then mark" order is the counterexample's subject),
drains the refresh list completely, and skips every final write in
monitoring mode. -/
theorem c5_exit_teardown_amended (st : St)
    (hw : st.writeFails = false) (hb : st.buffedwrite = false)
    (hdev : ∀ p ∈ st.lstRefresh, ∃ d, findDev st p = some d)
    (hnd : st.lstRefresh.Nodup) :
    ∃ st' ops, exitFull st = Except.ok (st', ops) ∧
      st'.lstRefresh = [] ∧ st'.looprunning = false ∧
      ops = exitOpsSpec st.monitoring st.lstRefresh.reverse ∧
      (∀ p ∈ st.lstRefresh, ∃ d, findDev st' p = some d ∧ d.selfupdate = false) ∧
      (st.monitoring = false → ∀ p ∈ st.lstRefresh,
        ops.count (ExitOp.write p) = 1 ∧
        occursBefore (ExitOp.mark p) (ExitOp.write p) ops = true) ∧
      (st.monitoring = true → ∀ p, ops.count (ExitOp.write p) = 0) := by
  have hdev0 : ∀ p ∈ st.lstRefresh.reverse,
      ∃ d, findDev { st with lstRefresh := [] } p = some d := by
    intro p hp
    exact hdev p (List.mem_reverse.mp hp)
  obtain ⟨st', hrec, h1, h2, h3, h4, h5, h6, h7⟩ :=
    exitLoop_spec st.lstRefresh.reverse { st with lstRefresh := [] } hw hb hdev0
  refine ⟨{ st' with looprunning := false },
    exitOpsSpec st.monitoring st.lstRefresh.reverse, ?_, ?_, rfl, rfl, ?_, ?_, ?_⟩
  · unfold exitFull
    rw [hrec]
    rfl
  · show st'.lstRefresh = []
    rw [h4]
  · intro p hp
    obtain ⟨d, hd', hsu⟩ := h7 p (List.mem_reverse.mpr hp)
    exact ⟨d, hd', hsu⟩
  · intro hm p hp
    constructor
    · rw [hm, exitOpsSpec_count_write, List.count_reverse]
      exact List.count_eq_one_of_mem hnd hp
    · rw [hm]
      exact exitOpsSpec_before _ p (List.mem_reverse.mpr hp)
  · intro hm p
    rw [hm]
    exact exitOpsSpec_count_write_mon _ p

/-- A device under cyclic refresh used by the concrete exit scenarios. -/
def devC5 : Dev :=
  { position := 0, name := "d0", selfupdate := true, datacp := [0],
    devdata := [7], events := [], slcDevoff := (0, 1), slcInp := (0, 0),
    slcInpoff := (0, 0), slcMem := (0, 0), slcMemoff := (0, 0),
    slcOut := (0, 1), slcOutoff := (0, 1) }

/-- A manager with one device under cyclic refresh, not monitoring. -/
def stC5 : St :=
  { devices := [devC5], procimg := [0], length := 1, ioerror := 0,
    maxioerrors := 0, monitoring := false, looprunning := true,
    lstRefresh := [0], refresh := 50, buffedwrite := false,
    readFails := false, writeFails := false, flushFails := false }

/-- The op trace of a successful exit run. -/
def opsOf (r : Except String (St × List ExitOp)) : List ExitOp :=
  match r with
  | Except.ok x => x.2
  | Except.error _ => []

/-- C5 counterexample: on a concrete state with one refreshed device,
`exit(full=True)` marks the device not-self-updating BEFORE its final
output write — the claim's order ("performs exactly one final output
write ... and then marks it no longer self-updating") never occurs in
the trace. -/
theorem c5_exit_order_counterexample :
    opsOf (exitFull stC5) = [ExitOp.mark 0, ExitOp.write 0] ∧
    occursBefore (ExitOp.write 0) (ExitOp.mark 0) (opsOf (exitFull stC5)) = false := by
  constructor <;> rfl

/-- Witness for `c5_exit_teardown_amended` at the concrete state
`stC5`. -/
theorem c5_exit_teardown_amended_witness :
    ∃ st' ops, exitFull stC5 = Except.ok (st', ops) ∧
      st'.lstRefresh = [] ∧ st'.looprunning = false ∧
      ops = exitOpsSpec stC5.monitoring stC5.lstRefresh.reverse ∧
      (∀ p ∈ stC5.lstRefresh, ∃ d, findDev st' p = some d ∧ d.selfupdate = false) ∧
      (stC5.monitoring = false → ∀ p ∈ stC5.lstRefresh,
        ops.count (ExitOp.write p) = 1 ∧
        occursBefore (ExitOp.mark p) (ExitOp.write p) ops = true) ∧
      (stC5.monitoring = true → ∀ p, ops.count (ExitOp.write p) = 0) :=
  c5_exit_teardown_amended stC5 rfl rfl
    (by
      intro p hp
      have hp0 : p = 0 := by simpa [stC5] using hp
      subst hp0
      exact ⟨devC5, rfl⟩)
    (by simp [stC5])

lemma writeFold_trace :
    ∀ (devs : List Dev) (acc : Bool × List Nat × List Int) (wf : Bool),
      (devs.foldl (writeStep wf) acc).2.2
        = acc.2.2 ++ (devs.filter (fun d => d.selfupdate = false)).map
            (fun d => d.position) := by
  intro devs
  induction devs with
  | nil => intro acc wf; simp
  | cons d t ih =>
      intro acc wf
      by_cases hs : d.selfupdate = true
      · simp [List.foldl_cons, writeStep, hs, ih, List.filter_cons]
      · have hs' : d.selfupdate = false := by simpa using hs
        cases wf <;>
          simp [List.foldl_cons, writeStep, hs', ih, List.filter_cons,
            List.append_assoc]

lemma readUpdate_position (m : Bool) (buff : List Nat) (d : Dev) :
    (readUpdate m buff d).position = d.position := by
  unfold readUpdate
  split
  · rfl
  · split <;> rfl

lemma readUpdate_selfupdate (m : Bool) (buff : List Nat) (d : Dev)
    (h : d.selfupdate = true) : readUpdate m buff d = d := by
  simp [readUpdate, h]

lemma syncUpdate_position (buff : List Nat) (d : Dev) :
    (syncUpdate buff d).position = d.position := by
  unfold syncUpdate
  split <;> rfl

lemma syncUpdate_selfupdate (buff : List Nat) (d : Dev)
    (h : d.selfupdate = true) : syncUpdate buff d = d := by
  simp [syncUpdate, h]

lemma writeOkTrace (c : Prop) [Decidable c] (X : St) (tr0 : List Int)
    (b : Bool) (st' : St) (tr : List Int)
    (hok : (if c then Except.ok (true, X, tr0)
            else (gotioerror X).map (fun s => (false, s, tr0)))
          = Except.ok (b, st', tr)) :
    tr = tr0 := by
  split at hok
  · have h := Except.ok.inj hok
    have h1 := (Prod.mk.injEq _ _ _ _).mp h
    have h2 := (Prod.mk.injEq _ _ _ _).mp h1.2
    exact h2.2.symm
  · cases hgo : gotioerror X with
    | error e => rw [hgo] at hok; simp [Except.map] at hok
    | ok s2 =>
        rw [hgo] at hok
        simp only [Except.map] at hok
        have h := Except.ok.inj hok
        have h1 := (Prod.mk.injEq _ _ _ _).mp h
        have h2 := (Prod.mk.injEq _ _ _ _).mp h1.2
        exact h2.2.symm

/-- C7 (amended): a self-updating device makes every TARGETED
`readprocimg`/`syncoutputs`/`writeprocimg` raise; the whole-image
variants do not raise on its account — they silently skip it, leaving
its record untouched, and the whole-image write only ever touches the
non-self-updating devices. -/
theorem c7_selfupdate_amended (st : St) (p : Int) (d : Dev)
    (hfind : findDev st p = some d) (hsu : d.selfupdate = true) :
    readprocimg st (some p)
      = Except.error
          "can not read process image, while device is in autorefresh mode" ∧
    syncoutputs st (some p)
      = Except.error
          "can not sync process image, while device is in autorefresh mode" ∧
    (∃ m, writeprocimg st (some p) = Except.error m) ∧
    (st.readFails = false →
      readprocimg st none
        = Except.ok (true,
            { st with devices :=
                st.devices.map (readUpdate st.monitoring (readBuff st)) }) ∧
      findDev
        { st with devices :=
            st.devices.map (readUpdate st.monitoring (readBuff st)) } p
        = some d ∧
      syncoutputs st none
        = Except.ok (true,
            { st with devices := st.devices.map (syncUpdate (readBuff st)) }) ∧
      findDev
        { st with devices := st.devices.map (syncUpdate (readBuff st)) } p
        = some d) ∧
    (st.monitoring = false → ∀ b st' tr,
      writeprocimg st none = Except.ok (b, st', tr) →
      tr = (st.devices.filter (fun x => x.selfupdate = false)).map
        (fun x => x.position)) := by
  refine ⟨?_, ?_, ?_, ?_, ?_⟩
  · simp [readprocimg, hfind, hsu]
  · simp [syncoutputs, hfind, hsu]
  · by_cases hm : st.monitoring = true
    · exact ⟨"can not write process image, while system is in monitoring mode",
        by simp [writeprocimg, hm]⟩
    · have hm' : st.monitoring = false := by simpa using hm
      exact ⟨"can not write process image, while device is in autorefresh mode",
        by simp [writeprocimg, hm', hfind, hsu]⟩
  · intro hrf
    refine ⟨by simp [readprocimg, hrf], ?_, by simp [syncoutputs, hrf], ?_⟩
    · rw [findDev_map_pos st _ (fun x => readUpdate_position st.monitoring (readBuff st) x) p,
        hfind]
      simp [readUpdate_selfupdate st.monitoring (readBuff st) d hsu]
    · rw [findDev_map_pos st _ (fun x => syncUpdate_position (readBuff st) x) p,
        hfind]
      simp [syncUpdate_selfupdate (readBuff st) d hsu]
  · intro hm b st' tr hok
    have htr : (writeFold st.writeFails st.procimg st.devices).2.2
        = (st.devices.filter (fun x => x.selfupdate = false)).map
            (fun x => x.position) := by
      rw [writeFold, writeFold_trace]
      simp
    simp only [writeprocimg, hm, Bool.false_eq_true, if_false] at hok
    rw [← htr]
    exact writeOkTrace _ _ _ b st' tr hok

/-- A manager with one self-updating device, healthy hardware. -/
def stC7 : St :=
  { devices := [devC5], procimg := [0], length := 1, ioerror := 0,
    maxioerrors := 0, monitoring := false, looprunning := false,
    lstRefresh := [0], refresh := 50, buffedwrite := false,
    readFails := false, writeFails := false, flushFails := false }

/-- The boolean work result of a read/sync call (`false` for a raise). -/
def resOk (r : Except String (Bool × St)) : Bool :=
  match r with
  | Except.ok x => x.1
  | Except.error _ => false

/-- C7 counterexample: with one self-updating device, the whole-image
`readprocimg`/`syncoutputs`/`writeprocimg` calls all succeed (no raise)
— they silently skip the device — contradicting the claim that the
whole-image variants also fail loudly. -/
theorem c7_whole_image_counterexample :
    devC5.selfupdate = true ∧
    stC7.devices = [devC5] ∧
    resOk (readprocimg stC7 none) = true ∧
    resOk (syncoutputs stC7 none) = true ∧
    writeprocimg stC7 none = Except.ok (true, stC7, []) := by
  refine ⟨rfl, rfl, rfl, rfl, rfl⟩

/-- Witness for `c7_selfupdate_amended` at the concrete state `stC7`. -/
theorem c7_selfupdate_amended_witness :
    readprocimg stC7 (some 0)
      = Except.error
          "can not read process image, while device is in autorefresh mode" :=
  (c7_selfupdate_amended stC7 0 devC5 rfl rfl).1

/-- C10 (amended): when the full-image read at the start of
`readprocimg` or `syncoutputs` fails, no device buffer is touched; the
call returns `False` with only the error counter incremented when the
counter stays below a non-zero maximum (or the maximum is 0), and it
raises the fatal error-threshold condition instead of returning `False`
when the incremented counter reaches the maximum. -/
theorem c10_read_failure_atomic (st : St) (o : Option Int)
    (hf : st.readFails = true)
    (hres : o = none ∨ ∃ p d, o = some p ∧ findDev st p = some d ∧
      d.selfupdate = false) :
    readprocimg st o = (gotioerror st).map (fun st' => (false, st')) ∧
    syncoutputs st o = (gotioerror st).map (fun st' => (false, st')) ∧
    ((st.maxioerrors = 0 ∨ st.ioerror + 1 < st.maxioerrors) →
      readprocimg st o = Except.ok (false, { st with ioerror := st.ioerror + 1 }) ∧
      syncoutputs st o = Except.ok (false, { st with ioerror := st.ioerror + 1 })) ∧
    (st.maxioerrors ≠ 0 → st.maxioerrors ≤ st.ioerror + 1 →
      readprocimg st o = Except.error "reach max io error count on process image" ∧
      syncoutputs st o = Except.error "reach max io error count on process image") ∧
    (∀ b st', readprocimg st o = Except.ok (b, st') → st'.devices = st.devices) ∧
    (∀ b st', syncoutputs st o = Except.ok (b, st') → st'.devices = st.devices) := by
  have hr : readprocimg st o = (gotioerror st).map (fun st' => (false, st')) := by
    rcases hres with h | ⟨p, d, ho, hfind, hsu⟩
    · subst h; simp [readprocimg, hf]
    · subst ho; simp [readprocimg, hfind, hsu, hf]
  have hs : syncoutputs st o = (gotioerror st).map (fun st' => (false, st')) := by
    rcases hres with h | ⟨p, d, ho, hfind, hsu⟩
    · subst h; simp [syncoutputs, hf]
    · subst ho; simp [syncoutputs, hfind, hsu, hf]
  refine ⟨hr, hs, ?_, ?_, ?_, ?_⟩
  · intro h
    have hng : ¬(st.maxioerrors ≠ 0 ∧ st.maxioerrors ≤ st.ioerror + 1) := by omega
    rw [hr, hs]
    simp [gotioerror, hng, Except.map]
  · intro h1 h2
    rw [hr, hs]
    simp [gotioerror, h1, h2, Except.map]
  · intro b st' hok
    rw [hr] at hok
    cases hgo : gotioerror st with
    | error e => rw [hgo] at hok; simp [Except.map] at hok
    | ok s2 =>
        rw [hgo] at hok
        simp only [Except.map] at hok
        have h := Except.ok.inj hok
        have h1 := (Prod.mk.injEq _ _ _ _).mp h
        rw [← h1.2]
        simp only [gotioerror] at hgo
        split at hgo
        · exact absurd hgo (by simp)
        · have := Except.ok.inj hgo
          rw [← this]
  · intro b st' hok
    rw [hs] at hok
    cases hgo : gotioerror st with
    | error e => rw [hgo] at hok; simp [Except.map] at hok
    | ok s2 =>
        rw [hgo] at hok
        simp only [Except.map] at hok
        have h := Except.ok.inj hok
        have h1 := (Prod.mk.injEq _ _ _ _).mp h
        rw [← h1.2]
        simp only [gotioerror] at hgo
        split at hgo
        · exact absurd hgo (by simp)
        · have := Except.ok.inj hgo
          rw [← this]

/-- A manager whose full-image read fails with the error counter about
to reach the configured maximum of 1. -/
def stC10 : St :=
  { devices := [devC5], procimg := [0], length := 1, ioerror := 0,
    maxioerrors := 1, monitoring := false, looprunning := false,
    lstRefresh := [], refresh := 50, buffedwrite := false,
    readFails := true, writeFails := false, flushFails := false }

/-- Like `stC10` but with unlimited errors allowed. -/
def stC10b : St :=
  { devices := [devC5], procimg := [0], length := 1, ioerror := 0,
    maxioerrors := 0, monitoring := false, looprunning := false,
    lstRefresh := [], refresh := 50, buffedwrite := false,
    readFails := true, writeFails := false, flushFails := false }

/-- C10 counterexample: with max-errors 1, a failing full-image read
raises the fatal threshold condition instead of returning `False`. -/
theorem c10_read_failure_counterexample :
    stC10.readFails = true ∧
    readprocimg stC10 none
      = Except.error "reach max io error count on process image" ∧
    syncoutputs stC10 none
      = Except.error "reach max io error count on process image" := by
  refine ⟨rfl, rfl, rfl⟩

/-- Witness for `c10_read_failure_atomic` at the concrete state
`stC10b`. -/
theorem c10_read_failure_atomic_witness :
    readprocimg stC10b none
      = Except.ok (false, { stC10b with ioerror := stC10b.ioerror + 1 }) ∧
    syncoutputs stC10b none
      = Except.ok (false, { stC10b with ioerror := stC10b.ioerror + 1 }) :=
  (c10_read_failure_atomic stC10b none rfl (Or.inl rfl)).2.2.1 (Or.inl rfl)

/-- Number of dispatched fire tuples whose registration is `r`. -/
def countReg (l : List Fire) (r : Reg) : Nat :=
  (l.filter (fun f => f.1 = r)).length

/-- A dispatcher-only device: position, slices and channel fields are
irrelevant to the mainloop body and fixed arbitrarily. -/
def mkDev (base live : List Nat) (evts : List (IOPoint × List Reg)) : Dev :=
  { position := 0, name := "dev", selfupdate := true, datacp := base,
    devdata := live, events := evts, slcDevoff := (0, 0), slcInp := (0, 0),
    slcInpoff := (0, 0), slcMem := (0, 0), slcMemoff := (0, 0),
    slcOut := (0, 0), slcOutoff := (0, 0) }

lemma dmSet_mem (m : DelayMap) (k : Fire) (v : Nat) :
    ∀ e ∈ dmSet m k v, e = (k, v) ∨ e ∈ m := by
  intro e he
  unfold dmSet at he
  split at he
  · obtain ⟨x, hx, hfx⟩ := List.mem_map.mp he
    by_cases hxk : x.1 = k
    · left
      rw [← hfx]
      simp [hxk]
    · right
      rw [← hfx]
      simp only [if_neg hxk]
      exact hx
  · rcases List.mem_append.mp he with h | h
    · right; exact h
    · left; simpa using h

lemma foldBit_fires (refresh : Nat) (devdata : List Nat) (pt : IOPoint)
    (boolor : Bool) :
    ∀ (regs : List Reg) (acc : List Fire × DelayMap),
      (regs.foldl (regStepBit refresh devdata pt boolor) acc).1
        = acc.1 ++ (regs.filter (fun r =>
            decide (matchEdge r boolor) && decide (r.delay = 0))).map
            (fun r => (r, pt.name, ioValue pt devdata)) := by
  intro regs
  induction regs with
  | nil => intro acc; simp
  | cons r t ih =>
      intro acc
      simp only [List.foldl_cons, List.filter_cons]
      by_cases hmJ : matchEdge r boolor
      · by_cases hd : r.delay = 0
        · rw [show regStepBit refresh devdata pt boolor acc r
              = (acc.1 ++ [(r, pt.name, ioValue pt devdata)], acc.2) from by
            simp [regStepBit, hmJ, hd]]
          rw [ih]
          simp [hmJ, hd, List.append_assoc]
        · by_cases hdd : (r.dedupe = true ∨
              dmMem acc.2 (r, pt.name, ioValue pt devdata) = false)
          · rw [show regStepBit refresh devdata pt boolor acc r
                = (acc.1, dmSet acc.2 (r, pt.name, ioValue pt devdata)
                    (ceilDiv r.delay refresh)) from by
              simp only [regStepBit, if_pos hmJ, if_neg hd, if_pos hdd]]
            rw [ih]
            simp [hmJ, hd]
          · rw [show regStepBit refresh devdata pt boolor acc r = acc from by
              simp only [regStepBit, if_pos hmJ, if_neg hd, if_neg hdd]]
            rw [ih]
            simp [hmJ, hd]
      · rw [show regStepBit refresh devdata pt boolor acc r = acc from by
          simp only [regStepBit, if_neg hmJ]]
        rw [ih]
        simp [hmJ]

lemma foldBit_keys (refresh : Nat) (devdata : List Nat) (pt : IOPoint)
    (boolor : Bool) :
    ∀ (regs : List Reg) (acc : List Fire × DelayMap),
      (∀ e ∈ acc.2, e.1.1.delay ≠ 0) →
      ∀ e ∈ (regs.foldl (regStepBit refresh devdata pt boolor) acc).2,
        e.1.1.delay ≠ 0 := by
  intro regs
  induction regs with
  | nil => intro acc h; exact h
  | cons r t ih =>
      intro acc hacc
      simp only [List.foldl_cons]
      apply ih
      intro e he
      by_cases hmJ : matchEdge r boolor
      · by_cases hd : r.delay = 0
        · simp only [regStepBit, if_pos hmJ, if_pos hd] at he
          exact hacc e he
        · by_cases hdd : (r.dedupe = true ∨
              dmMem acc.2 (r, pt.name, ioValue pt devdata) = false)
          · simp only [regStepBit, if_pos hmJ, if_neg hd, if_pos hdd] at he
            rcases dmSet_mem _ _ _ e he with h | h
            · rw [h]
              exact hd
            · exact hacc e h
          · simp only [regStepBit, if_pos hmJ, if_neg hd, if_neg hdd] at he
            exact hacc e he
      · simp only [regStepBit, if_neg hmJ] at he
        exact hacc e he

lemma pd_fires (devs : List Dev) :
    ∀ (m : DelayMap) (acc : DelayMap × List Fire),
      ∀ f ∈ (m.foldl (pdStep devs) acc).2, f ∈ acc.2 ∨ ∃ e ∈ m, f = e.1 := by
  intro m
  induction m with
  | nil => intro acc f hf; left; exact hf
  | cons e t ih =>
      intro acc f hf
      simp only [List.foldl_cons] at hf
      rcases ih (pdStep devs acc e) f hf with h | h
      · unfold pdStep at h
        split at h
        · left; exact h
        · split at h
          · rcases List.mem_append.mp h with h1 | h1
            · left; exact h1
            · right
              exact ⟨e, List.mem_cons_self e t, by simpa using h1⟩
          · left; exact h
      · right
        obtain ⟨e', he', hf'⟩ := h
        exact ⟨e', List.mem_cons_of_mem e he', hf'⟩

lemma countReg_append (l1 l2 : List Fire) (r : Reg) :
    countReg (l1 ++ l2) r = countReg l1 r + countReg l2 r := by
  simp [countReg, List.filter_append]

lemma countReg_reverse (l : List Fire) (r : Reg) :
    countReg l.reverse r = countReg l r := by
  simp [countReg, List.filter_reverse]

lemma countReg_eq_zero (l : List Fire) (r : Reg) (h : ∀ f ∈ l, f.1 ≠ r) :
    countReg l r = 0 := by
  unfold countReg
  rw [List.length_eq_zero, List.filter_eq_nil_iff]
  intro f hf
  simpa using h f hf

lemma countReg_fires (nm : String) (v : Nat) :
    ∀ (l : List Reg) (r : Reg),
      countReg (l.map (fun r' => ((r', nm, v) : Fire))) r = l.count r := by
  intro l
  induction l with
  | nil => intro r; rfl
  | cons a t ih =>
      intro r
      by_cases ha : a = r
      · subst ha
        simp only [List.map_cons, countReg, List.filter_cons, List.count_cons]
        simp only [decide_True, decide_eq_true_eq]
        simp
        exact ih a
      · simp only [List.map_cons, countReg, List.filter_cons, List.count_cons]
        simp [ha]
        exact ih r

lemma count_filter_zero (regs : List Reg) (q : Reg → Bool) (r : Reg)
    (h : q r = false) : (regs.filter q).count r = 0 := by
  rw [List.count_eq_zero]
  intro hc
  have := List.of_mem_filter hc
  rw [h] at this
  exact Bool.false_ne_true this

lemma count_filter_one (regs : List Reg) (q : Reg → Bool) (r : Reg)
    (h : q r = true) : (regs.filter q).count r = regs.count r := by
  induction regs with
  | nil => rfl
  | cons a t ih =>
      by_cases ha : a = r
      · subst ha
        simp [List.filter_cons, h, List.count_cons, ih]
      · by_cases hqa : q a = true
        · simp [List.filter_cons, hqa, List.count_cons, ha, ih]
        · simp [List.filter_cons, hqa, List.count_cons, ha, ih]

lemma c1_equal (c : Nat) (base live : List Nat) (pt : IOPoint)
    (regs : List Reg) (hb : 0 ≤ pt.bitaddress)
    (hbit : bitOf pt live = bitOf pt base) :
    (mainloopCycle c [mkDev base live [(pt, regs)]] []).2.2 = [] := by
  by_cases hbl : base = live
  · subst hbl
    simp [mainloopCycle, scanAll, scanDev, processDelay, mkDev]
  · by_cases hs : getSlice base pt.slc = getSlice live pt.slc
    · simp [mainloopCycle, scanAll, scanDev, mkDev, hbl, scanPoint, hs,
        processDelay]
    · simp [mainloopCycle, scanAll, scanDev, mkDev, hbl, scanPoint, hs, hb,
        hbit, processDelay]

lemma c1_master (c : Nat) (base live : List Nat) (pt : IOPoint)
    (regs : List Reg) (hb : 0 ≤ pt.bitaddress)
    (hbit : bitOf pt live ≠ bitOf pt base) :
    ∃ fires2 : List Fire,
      (mainloopCycle c [mkDev base live [(pt, regs)]] []).2.2
        = ((regs.filter (fun r' =>
            decide (matchEdge r' (bitOf pt live)) && decide (r'.delay = 0))).map
            (fun r' => ((r', pt.name, ioValue pt live) : Fire)) ++ fires2).reverse ∧
      (∀ f ∈ fires2, f.1.delay ≠ 0) := by
  have hs : getSlice base pt.slc ≠ getSlice live pt.slc := by
    intro h
    exact hbit (by unfold bitOf; rw [h])
  have hbl : base ≠ live := by
    intro h
    exact hs (by rw [h])
  refine ⟨(processDelay [{ mkDev base live [(pt, regs)] with datacp := live }]
      (regs.foldl (regStepBit c live pt (bitOf pt live)) ([], [])).2).2, ?_, ?_⟩
  · have hmain : (mainloopCycle c [mkDev base live [(pt, regs)]] []).2.2
        = ((regs.foldl (regStepBit c live pt (bitOf pt live)) ([], [])).1
           ++ (processDelay [{ mkDev base live [(pt, regs)] with datacp := live }]
                (regs.foldl (regStepBit c live pt (bitOf pt live)) ([], [])).2).2).reverse := by
      simp [mainloopCycle, scanAll, scanDev, scanPoint, mkDev, hbl, hs, hb, hbit]
    rw [hmain, foldBit_fires]
    simp
  · intro f hf
    rcases pd_fires _ _ _ f hf with h | ⟨e, he, hfe⟩
    · simp at h
    · have hk := foldBit_keys c live pt (bitOf pt live) regs ([], [])
        (by intro e' he'; simp at he') e he
      rw [hfe]
      exact hk

/-- C1: in one dispatcher cycle over a registered bit point, a baseline
bit 0 with live bit 1 fires every RISING/BOTH registration with delay 0
exactly once and no FALLING-only registration; a baseline 1 with live 0
fires every FALLING/BOTH registration exactly once and no RISING-only
one; equal bits dispatch nothing at all for the point. -/
theorem c1_edge_detection (c : Nat) (base live : List Nat) (pt : IOPoint)
    (regs : List Reg) (r : Reg) (hb : 0 ≤ pt.bitaddress)
    (hr : regs.count r = 1) (hd : r.delay = 0) :
    ((bitOf pt base = false ∧ bitOf pt live = true) →
      (((r.edge = Edge.rising ∨ r.edge = Edge.both) →
        countReg (mainloopCycle c [mkDev base live [(pt, regs)]] []).2.2 r = 1) ∧
       (r.edge = Edge.falling →
        countReg (mainloopCycle c [mkDev base live [(pt, regs)]] []).2.2 r = 0))) ∧
    ((bitOf pt base = true ∧ bitOf pt live = false) →
      (((r.edge = Edge.falling ∨ r.edge = Edge.both) →
        countReg (mainloopCycle c [mkDev base live [(pt, regs)]] []).2.2 r = 1) ∧
       (r.edge = Edge.rising →
        countReg (mainloopCycle c [mkDev base live [(pt, regs)]] []).2.2 r = 0))) ∧
    (bitOf pt base = bitOf pt live →
      (mainloopCycle c [mkDev base live [(pt, regs)]] []).2.2 = []) := by
  have hcount : ∀ (hbit : bitOf pt live ≠ bitOf pt base),
      countReg (mainloopCycle c [mkDev base live [(pt, regs)]] []).2.2 r
        = (regs.filter (fun r' =>
            decide (matchEdge r' (bitOf pt live)) && decide (r'.delay = 0))).count r := by
    intro hbit
    obtain ⟨fires2, hmain, hkeys⟩ := c1_master c base live pt regs hb hbit
    rw [hmain, countReg_reverse, countReg_append, countReg_fires]
    have hz : countReg fires2 r = 0 := by
      apply countReg_eq_zero
      intro f hf hfr
      exact hkeys f hf (by rw [hfr, hd])
    rw [hz]
    omega
  refine ⟨?_, ?_, ?_⟩
  · rintro ⟨h1, h2⟩
    have hbit : bitOf pt live ≠ bitOf pt base := by
      rw [h1, h2]
      simp
    constructor
    · intro hedge
      rw [hcount hbit]
      have hq : (decide (matchEdge r (bitOf pt live)) &&
          decide (r.delay = 0)) = true := by
        rw [h2]
        rcases hedge with he | he <;> simp [matchEdge, he, hd]
      rw [count_filter_one regs
        (fun r' => decide (matchEdge r' (bitOf pt live)) && decide (r'.delay = 0))
        r hq, hr]
    · intro hedge
      rw [hcount hbit]
      apply count_filter_zero
      rw [h2]
      simp [matchEdge, hedge]
  · rintro ⟨h1, h2⟩
    have hbit : bitOf pt live ≠ bitOf pt base := by
      rw [h1, h2]
      simp
    constructor
    · intro hedge
      rw [hcount hbit]
      have hq : (decide (matchEdge r (bitOf pt live)) &&
          decide (r.delay = 0)) = true := by
        rw [h2]
        rcases hedge with he | he <;> simp [matchEdge, he, hd]
      rw [count_filter_one regs
        (fun r' => decide (matchEdge r' (bitOf pt live)) && decide (r'.delay = 0))
        r hq, hr]
    · intro hedge
      rw [hcount hbit]
      apply count_filter_zero
      rw [h2]
      simp [matchEdge, hedge]
  · intro heq
    exact c1_equal c base live pt regs hb heq.symm

/-- The bit point and delay-0 RISING registration of the C1 witness. -/
def ptW : IOPoint := ⟨"w0", (0, 1), 0, BOrder.little⟩

/-- A delay-0 RISING inline registration. -/
def regW : Reg := ⟨1, Edge.rising, false, 0, false⟩

/-- Witness for `c1_edge_detection`: bytes `0x00 -> 0x01` fire the
RISING registration exactly once. -/
theorem c1_edge_detection_witness :
    countReg (mainloopCycle 10 [mkDev [0] [1] [(ptW, [regW])]] []).2.2 regW = 1 :=
  ((c1_edge_detection 10 [0] [1] ptW [regW] regW (by decide) (by decide)
    rfl).1 ⟨rfl, rfl⟩).1 (Or.inl rfl)

/-- The non-bit I/O point of the C4 scenarios. -/
def ptN : IOPoint := ⟨"w1", (0, 1), -1, BOrder.little⟩

/-- A BOTH registration with 30 ms delay and re-dedupe flag off. -/
def regN : Reg := ⟨2, Edge.both, false, 30, false⟩

/-- A pending delayed entry for `regN` on `ptN` with captured value 5
and 5 remaining cycles. -/
def pendingC4 : DelayMap := [((regN, "w1", 5), 5)]

/-- C4 counterexample: for a non-bit point, a newly detected firing whose
key is already pending replaces the pending countdown (5 becomes 3) even
though the registration's re-dedupe flag is off — the claim says the new
firing must be ignored. -/
theorem c4_nonbit_dedupe_counterexample :
    regN.dedupe = false ∧
    dmMem pendingC4 (regN, "w1", 5) = true ∧
    scanPoint 10 [2] [5] ptN [regN] ([], pendingC4)
      = ([], [((regN, "w1", 5), 3)]) := by
  refine ⟨rfl, rfl, rfl⟩

/-- C4 (amended): for a BIT point, a firing whose key is already pending
is ignored when the re-dedupe flag is off and replaces the countdown when
it is on; for a NON-BIT point the countdown is always replaced, because
the source tests `regfunc not in dict_delay`, which never holds. -/
theorem c4_delay_dedupe_amended (refresh : Nat) (datacp devdata : List Nat)
    (pt : IOPoint) (r : Reg) (m : DelayMap)
    (hs : getSlice datacp pt.slc ≠ getSlice devdata pt.slc)
    (hdelay : r.delay ≠ 0) :
    (0 ≤ pt.bitaddress →
      bitOf pt devdata ≠ bitOf pt datacp →
      matchEdge r (bitOf pt devdata) →
      ((r.dedupe = false →
        dmMem m (r, pt.name, ioValue pt devdata) = true →
        scanPoint refresh datacp devdata pt [r] ([], m) = ([], m)) ∧
       (r.dedupe = true →
        scanPoint refresh datacp devdata pt [r] ([], m)
          = ([], dmSet m (r, pt.name, ioValue pt devdata)
              (ceilDiv r.delay refresh))))) ∧
    (pt.bitaddress < 0 →
      scanPoint refresh datacp devdata pt [r] ([], m)
        = ([], dmSet m (r, pt.name, ioValue pt devdata)
            (ceilDiv r.delay refresh))) := by
  constructor
  · intro hb hbit hedge
    constructor
    · intro hdd hmem
      simp only [scanPoint, if_neg hs, if_pos hb, if_neg hbit,
        List.foldl_cons, List.foldl_nil]
      simp only [regStepBit, if_pos hedge, if_neg hdelay]
      rw [if_neg]
      intro hor
      rcases hor with h | h
      · rw [hdd] at h
        exact Bool.false_ne_true h
      · rw [hmem] at h
        simp at h
    · intro hdd
      simp only [scanPoint, if_neg hs, if_pos hb, if_neg hbit,
        List.foldl_cons, List.foldl_nil]
      simp only [regStepBit, if_pos hedge, if_neg hdelay]
      rw [if_pos (Or.inl hdd)]
  · intro hbneg
    have hb' : ¬(0 ≤ pt.bitaddress) := by omega
    simp only [scanPoint, if_neg hs, if_neg hb', List.foldl_cons,
      List.foldl_nil]
    simp only [regStepNoBit, if_neg hdelay, regfuncMem]
    simp

/-- A RISING registration with 30 ms delay and re-dedupe flag on. -/
def regD : Reg := ⟨3, Edge.rising, false, 30, true⟩

/-- Witness for `c4_delay_dedupe_amended`: arming a delayed entry for a
bit point with the re-dedupe flag on writes the fresh countdown. -/
theorem c4_delay_dedupe_amended_witness :
    scanPoint 10 [0] [1] ptW [regD] ([], [])
      = ([], dmSet [] (regD, ptW.name, ioValue ptW [1]) (ceilDiv regD.delay 10)) :=
  ((c4_delay_dedupe_amended 10 [0] [1] ptW regD [] (by decide) (by decide)).1
    (by decide) (by decide) (by decide)).2 rfl

/-- The boolean input bit of the C3 delay scenario. -/
def ptB : IOPoint := ⟨"p1", (0, 1), 0, BOrder.little⟩

/-- A RISING registration with delay three times the cycle time. -/
def regDelay3 (dd : Bool) (c : Nat) : Reg := ⟨4, Edge.rising, false, 3 * c, dd⟩

/-- The single scenario device, initially all zero. -/
def devB (dd : Bool) (c : Nat) : Dev := mkDev [0] [0] [(ptB, [regDelay3 dd c])]

/-- The delayed-entry key armed by the rising edge (captured value 1). -/
def keyB (dd : Bool) (c : Nat) : Fire := (regDelay3 dd c, "p1", 1)

lemma ceil3 (c : Nat) (hc : 1 ≤ c) : ceilDiv (3 * c) c = 3 := by
  unfold ceilDiv
  exact Nat.div_eq_of_lt_le (by omega) (by omega)


lemma scanPoint_eval0 (dd : Bool) (c : Nat) (hc : 1 ≤ c) :
    scanPoint c [0] [1] ptB [regDelay3 dd c] ([], [])
      = ([], [(keyB dd c, 3)]) := by
  have h0 : ¬((regDelay3 dd c).delay = 0) := by
    simp only [regDelay3]
    omega
  have h3 : ceilDiv ((regDelay3 dd c).delay) c = 3 := ceil3 c hc
  unfold scanPoint
  rw [if_neg (show ¬(getSlice [0] ptB.slc = getSlice [1] ptB.slc) by decide)]
  rw [if_pos (show (0:Int) ≤ ptB.bitaddress by decide)]
  rw [if_neg (show ¬(bitOf ptB [1] = bitOf ptB [0]) by decide)]
  rw [List.foldl_cons, List.foldl_nil]
  unfold regStepBit
  rw [if_pos (show matchEdge (regDelay3 dd c) (bitOf ptB [1])
    from Or.inr (Or.inl ⟨rfl, by decide⟩))]
  rw [if_neg h0]
  have hcond : (regDelay3 dd c).dedupe = true ∨
      dmMem (([] : List Fire), ([] : DelayMap)).2
        (regDelay3 dd c, ptB.name, ioValue ptB [1]) = false := Or.inr rfl
  rw [if_pos hcond]
  rw [h3]
  show (([] : List Fire), dmSet ([] : DelayMap)
    (regDelay3 dd c, ptB.name, ioValue ptB [1]) 3) = ([], [(keyB dd c, 3)])
  rw [show dmSet ([] : DelayMap) (regDelay3 dd c, ptB.name, ioValue ptB [1]) 3
    = [((regDelay3 dd c, ptB.name, ioValue ptB [1]), 3)] from rfl]
  rw [show ioValue ptB [1] = 1 by decide]
  rfl

lemma currentVal_p1 (dd : Bool) (c : Nat) (a b : Nat) :
    currentVal [mkDev [a] [b] [(ptB, [regDelay3 dd c])]] "p1"
      = ioValue ptB [b] := by
  unfold currentVal ioByName
  rw [show (mkDev [a] [b] [(ptB, [regDelay3 dd c])]).events
    = [(ptB, [regDelay3 dd c])] from rfl]
  rw [List.find?_cons_of_pos _ rfl]
  rfl

lemma c3_cycle0 (dd : Bool) (c : Nat) (hc : 1 ≤ c) :
    mainloopCycle c [mkDev [0] [1] [(ptB, [regDelay3 dd c])]] []
      = ([mkDev [1] [1] [(ptB, [regDelay3 dd c])]], [(keyB dd c, 2)], []) := by
  have hdev : scanDev c ([], []) (mkDev [0] [1] [(ptB, [regDelay3 dd c])])
      = (([], [(keyB dd c, 3)]), mkDev [1] [1] [(ptB, [regDelay3 dd c])]) := by
    unfold scanDev
    rw [if_neg (show ¬((mkDev [0] [1] [(ptB, [regDelay3 dd c])]).events = [] ∨
        (mkDev [0] [1] [(ptB, [regDelay3 dd c])]).datacp
          = (mkDev [0] [1] [(ptB, [regDelay3 dd c])]).devdata) by simp [mkDev])]
    dsimp only [mkDev]
    rw [List.foldl_cons, List.foldl_nil]
    dsimp only
    rw [scanPoint_eval0 dd c hc]
  have hall : scanAll c [mkDev [0] [1] [(ptB, [regDelay3 dd c])]] ([], [])
      = (([], [(keyB dd c, 3)]), [mkDev [1] [1] [(ptB, [regDelay3 dd c])]]) := by
    unfold scanAll
    rw [List.foldl_cons, List.foldl_nil]
    show ((scanDev c ([], []) (mkDev [0] [1] [(ptB, [regDelay3 dd c])])).1,
      [] ++ [(scanDev c ([], []) (mkDev [0] [1] [(ptB, [regDelay3 dd c])])).2])
      = (([], [(keyB dd c, 3)]), [mkDev [1] [1] [(ptB, [regDelay3 dd c])]])
    rw [hdev]
    rfl
  have hpd : processDelay [mkDev [1] [1] [(ptB, [regDelay3 dd c])]]
      [(keyB dd c, 3)] = ([(keyB dd c, 2)], []) := by
    unfold processDelay
    rw [List.foldl_cons, List.foldl_nil]
    unfold pdStep
    rw [if_neg (show ¬((keyB dd c).1.dedupe = true ∧
        currentVal [mkDev [1] [1] [(ptB, [regDelay3 dd c])]] (keyB dd c).2.1
          ≠ (keyB dd c).2.2) from ?hne)]
    case hne =>
      rintro ⟨hdd1, hne1⟩
      apply hne1
      show currentVal [mkDev [1] [1] [(ptB, [regDelay3 dd c])]] "p1" = 1
      rw [currentVal_p1]
      decide
    rw [if_neg (show ¬((3:Nat) - 1 = 0) by decide)]
    rfl
  unfold mainloopCycle
  rw [hall]
  show ([mkDev [1] [1] [(ptB, [regDelay3 dd c])]],
    (processDelay [mkDev [1] [1] [(ptB, [regDelay3 dd c])]] [(keyB dd c, 3)]).1,
    (([] : List Fire) ++ (processDelay [mkDev [1] [1] [(ptB, [regDelay3 dd c])]]
      [(keyB dd c, 3)]).2).reverse)
    = ([mkDev [1] [1] [(ptB, [regDelay3 dd c])]], [(keyB dd c, 2)], [])
  rw [hpd]
  rfl

lemma scanPoint_eval1 (dd : Bool) (c : Nat) (m : DelayMap) :
    scanPoint c [1] [0] ptB [regDelay3 dd c] ([], m) = ([], m) := by
  unfold scanPoint
  rw [if_neg (show ¬(getSlice [1] ptB.slc = getSlice [0] ptB.slc) by decide)]
  rw [if_pos (show (0:Int) ≤ ptB.bitaddress by decide)]
  rw [if_neg (show ¬(bitOf ptB [0] = bitOf ptB [1]) by decide)]
  rw [List.foldl_cons, List.foldl_nil]
  unfold regStepBit
  rw [if_neg (show ¬matchEdge (regDelay3 dd c) (bitOf ptB [0]) from ?hnm)]
  case hnm =>
    rintro (h | ⟨h1, h2⟩ | ⟨h1, h2⟩)
    · exact Edge.noConfusion h
    · exact absurd h2 (by decide)
    · exact Edge.noConfusion h1

lemma c3_cycle1 (dd : Bool) (c : Nat) (m : DelayMap) :
    mainloopCycle c [mkDev [1] [0] [(ptB, [regDelay3 dd c])]] m
      = ([mkDev [0] [0] [(ptB, [regDelay3 dd c])]],
         (processDelay [mkDev [0] [0] [(ptB, [regDelay3 dd c])]] m).1,
         (processDelay [mkDev [0] [0] [(ptB, [regDelay3 dd c])]] m).2.reverse) := by
  have hdev : scanDev c ([], m) (mkDev [1] [0] [(ptB, [regDelay3 dd c])])
      = (([], m), mkDev [0] [0] [(ptB, [regDelay3 dd c])]) := by
    unfold scanDev
    rw [if_neg (show ¬((mkDev [1] [0] [(ptB, [regDelay3 dd c])]).events = [] ∨
        (mkDev [1] [0] [(ptB, [regDelay3 dd c])]).datacp
          = (mkDev [1] [0] [(ptB, [regDelay3 dd c])]).devdata) by simp [mkDev])]
    dsimp only [mkDev]
    rw [List.foldl_cons, List.foldl_nil]
    dsimp only
    rw [scanPoint_eval1 dd c m]
  have hall : scanAll c [mkDev [1] [0] [(ptB, [regDelay3 dd c])]] ([], m)
      = (([], m), [mkDev [0] [0] [(ptB, [regDelay3 dd c])]]) := by
    unfold scanAll
    rw [List.foldl_cons, List.foldl_nil]
    show ((scanDev c ([], m) (mkDev [1] [0] [(ptB, [regDelay3 dd c])])).1,
      [] ++ [(scanDev c ([], m) (mkDev [1] [0] [(ptB, [regDelay3 dd c])])).2])
      = (([], m), [mkDev [0] [0] [(ptB, [regDelay3 dd c])]])
    rw [hdev]
    rfl
  unfold mainloopCycle
  rw [hall]
  rfl

lemma c3_cycle1_nodedupe (c : Nat) :
    mainloopCycle c [mkDev [1] [0] [(ptB, [regDelay3 false c])]]
        [(keyB false c, 2)]
      = ([mkDev [0] [0] [(ptB, [regDelay3 false c])]], [(keyB false c, 1)], []) := by
  rw [c3_cycle1 false c [(keyB false c, 2)]]
  have hpd : processDelay [mkDev [0] [0] [(ptB, [regDelay3 false c])]]
      [(keyB false c, 2)] = ([(keyB false c, 1)], []) := by
    unfold processDelay
    rw [List.foldl_cons, List.foldl_nil]
    unfold pdStep
    rw [if_neg (show ¬((keyB false c).1.dedupe = true ∧
        currentVal [mkDev [0] [0] [(ptB, [regDelay3 false c])]]
          (keyB false c).2.1 ≠ (keyB false c).2.2) from ?hne1)]
    case hne1 =>
      rintro ⟨h1, _⟩
      exact Bool.false_ne_true h1
    rw [if_neg (show ¬((2:Nat) - 1 = 0) by decide)]
    rfl
  rw [hpd]
  rfl

lemma c3_cycle1_dedupe (c : Nat) :
    mainloopCycle c [mkDev [1] [0] [(ptB, [regDelay3 true c])]]
        [(keyB true c, 2)]
      = ([mkDev [0] [0] [(ptB, [regDelay3 true c])]], [], []) := by
  rw [c3_cycle1 true c [(keyB true c, 2)]]
  have hpd : processDelay [mkDev [0] [0] [(ptB, [regDelay3 true c])]]
      [(keyB true c, 2)] = ([], []) := by
    unfold processDelay
    rw [List.foldl_cons, List.foldl_nil]
    unfold pdStep
    rw [if_pos (show (keyB true c).1.dedupe = true ∧
        currentVal [mkDev [0] [0] [(ptB, [regDelay3 true c])]]
          (keyB true c).2.1 ≠ (keyB true c).2.2 from
      ⟨rfl, by
        rw [show ((keyB true c).2.1 : String) = "p1" from rfl, currentVal_p1,
          show ((keyB true c).2.2 : Nat) = 1 from rfl]
        decide⟩)]
  rw [hpd]
  rfl

lemma c3_cycle2_nodedupe (c : Nat) :
    mainloopCycle c [mkDev [0] [0] [(ptB, [regDelay3 false c])]]
        [(keyB false c, 1)]
      = ([mkDev [0] [0] [(ptB, [regDelay3 false c])]], [], [keyB false c]) := by
  have hall : scanAll c [mkDev [0] [0] [(ptB, [regDelay3 false c])]]
      ([], [(keyB false c, 1)])
      = (([], [(keyB false c, 1)]), [mkDev [0] [0] [(ptB, [regDelay3 false c])]]) := by
    unfold scanAll
    rw [List.foldl_cons, List.foldl_nil]
    show ((scanDev c ([], [(keyB false c, 1)])
        (mkDev [0] [0] [(ptB, [regDelay3 false c])])).1,
      [] ++ [(scanDev c ([], [(keyB false c, 1)])
        (mkDev [0] [0] [(ptB, [regDelay3 false c])])).2])
      = (([], [(keyB false c, 1)]), [mkDev [0] [0] [(ptB, [regDelay3 false c])]])
    rw [show scanDev c ([], [(keyB false c, 1)])
        (mkDev [0] [0] [(ptB, [regDelay3 false c])])
      = (([], [(keyB false c, 1)]), mkDev [0] [0] [(ptB, [regDelay3 false c])])
      from by
        unfold scanDev
        rw [if_pos (Or.inr (show (mkDev [0] [0] [(ptB, [regDelay3 false c])]).datacp
          = (mkDev [0] [0] [(ptB, [regDelay3 false c])]).devdata from rfl))]]
    rfl
  have hpd : processDelay [mkDev [0] [0] [(ptB, [regDelay3 false c])]]
      [(keyB false c, 1)] = ([], [keyB false c]) := by
    unfold processDelay
    rw [List.foldl_cons, List.foldl_nil]
    unfold pdStep
    rw [if_neg (show ¬((keyB false c).1.dedupe = true ∧
        currentVal [mkDev [0] [0] [(ptB, [regDelay3 false c])]]
          (keyB false c).2.1 ≠ (keyB false c).2.2) from ?hne2)]
    case hne2 =>
      rintro ⟨h1, _⟩
      exact Bool.false_ne_true h1
    rw [if_pos (show ((1:Nat) - 1 = 0) by decide)]
    rfl
  unfold mainloopCycle
  rw [hall]
  dsimp only
  rw [hpd]
  rfl

lemma runCycles_cons (refresh : Nat) (devs : List Dev) (m : DelayMap)
    (ins : List (List Nat)) (rest : List (List (List Nat))) :
    runCycles refresh devs m (ins :: rest)
      = ((runCycles refresh (mainloopCycle refresh (applyInput devs ins) m).1
            (mainloopCycle refresh (applyInput devs ins) m).2.1 rest).1,
         (runCycles refresh (mainloopCycle refresh (applyInput devs ins) m).1
            (mainloopCycle refresh (applyInput devs ins) m).2.1 rest).2.1,
         (mainloopCycle refresh (applyInput devs ins) m).2.2
           :: (runCycles refresh (mainloopCycle refresh (applyInput devs ins) m).1
              (mainloopCycle refresh (applyInput devs ins) m).2.1 rest).2.2) := rfl

lemma c3_quiet (c : Nat) (evts : List (IOPoint × List Reg)) :
    ∀ m : Nat, runCycles c [mkDev [0] [0] evts] [] (List.replicate m [[0]])
      = ([mkDev [0] [0] evts], [], List.replicate m []) := by
  intro m
  induction m with
  | zero => rfl
  | succ k ih =>
      have hstep : mainloopCycle c (applyInput [mkDev [0] [0] evts] [[0]]) []
          = ([mkDev [0] [0] evts], [], []) := by
        have hdev : scanDev c ([], []) (mkDev [0] [0] evts)
            = (([], []), mkDev [0] [0] evts) := by
          unfold scanDev
          rw [if_pos (Or.inr (show (mkDev [0] [0] evts).datacp
            = (mkDev [0] [0] evts).devdata from rfl))]
        have hall : scanAll c [mkDev [0] [0] evts] ([], [])
            = (([], []), [mkDev [0] [0] evts]) := by
          unfold scanAll
          rw [List.foldl_cons, List.foldl_nil]
          show ((scanDev c ([], []) (mkDev [0] [0] evts)).1,
            [] ++ [(scanDev c ([], []) (mkDev [0] [0] evts)).2])
            = (([], []), [mkDev [0] [0] evts])
          rw [hdev]
          rfl
        have happ : applyInput [mkDev [0] [0] evts] [[0]]
            = [mkDev [0] [0] evts] := rfl
        rw [happ]
        unfold mainloopCycle
        rw [hall]
        rfl
      rw [show List.replicate (k + 1) ([[0]] : List (List Nat))
        = [[0]] :: List.replicate k [[0]] from rfl]
      rw [runCycles_cons, hstep]
      dsimp only
      rw [ih]
      rfl

lemma c3_run_nodedupe (c : Nat) (hc : 1 ≤ c) (m : Nat) :
    (runCycles c [devB false c] []
        ([[1]] :: [[0]] :: [[0]] :: List.replicate m [[0]])).2.2
      = [] :: [] :: [keyB false c] :: List.replicate m [] := by
  have ha0 : applyInput [devB false c] [[1]]
      = [mkDev [0] [1] [(ptB, [regDelay3 false c])]] := rfl
  have ha1 : applyInput [mkDev [1] [1] [(ptB, [regDelay3 false c])]] [[0]]
      = [mkDev [1] [0] [(ptB, [regDelay3 false c])]] := rfl
  have ha2 : applyInput [mkDev [0] [0] [(ptB, [regDelay3 false c])]] [[0]]
      = [mkDev [0] [0] [(ptB, [regDelay3 false c])]] := rfl
  rw [runCycles_cons, ha0, c3_cycle0 false c hc]
  dsimp only
  rw [runCycles_cons, ha1, c3_cycle1_nodedupe c]
  dsimp only
  rw [runCycles_cons, ha2, c3_cycle2_nodedupe c]
  dsimp only
  rw [c3_quiet c [(ptB, [regDelay3 false c])] m]

lemma c3_run_dedupe (c : Nat) (hc : 1 ≤ c) (m : Nat) :
    (runCycles c [devB true c] []
        ([[1]] :: [[0]] :: [[0]] :: List.replicate m [[0]])).2.2
      = [] :: [] :: [] :: List.replicate m [] := by
  have ha0 : applyInput [devB true c] [[1]]
      = [mkDev [0] [1] [(ptB, [regDelay3 true c])]] := rfl
  have ha1 : applyInput [mkDev [1] [1] [(ptB, [regDelay3 true c])]] [[0]]
      = [mkDev [1] [0] [(ptB, [regDelay3 true c])]] := rfl
  rw [runCycles_cons, ha0, c3_cycle0 true c hc]
  dsimp only
  rw [runCycles_cons, ha1, c3_cycle1_dedupe c]
  dsimp only
  rw [show ([[0]] : List (List Nat)) :: List.replicate m [[0]]
    = List.replicate (m + 1) [[0]] from rfl]
  rw [c3_quiet c [(ptB, [regDelay3 true c])] (m + 1)]
  rfl

/-- C3 counterexample: with cycle time 10 ms and delay 30 ms, the edge
detected in cycle 0 dispatches its callback in cycle 2 — NOT 3 cycles
after detection as claimed — because the countdown ceil(30/10) = 3 is
already decremented once in the detection cycle itself. -/
theorem c3_delay_counterexample :
    (runCycles 10 [devB false 10] [] [[[1]], [[0]], [[0]], [[0]]]).2.2
      = [[], [], [keyB false 10], []] ∧
    ceilDiv (3 * 10) 10 = 3 := by
  refine ⟨rfl, rfl⟩

/-- C3 (amended): a registration with delay = 3×cycle_ms and dedupe
flag off fires exactly 2 dispatcher cycles after the detection cycle
(the countdown starts at ceil(delay/cycle) = 3 and is decremented once
per cycle including the detection cycle), even if the triggering value
reverts in between; with the dedupe flag on, the revert cancels the
pending entry before the countdown reaches zero and it never fires. -/
theorem c3_delay_amended (c m : Nat) (hc : 1 ≤ c) :
    (runCycles c [devB false c] []
        ([[1]] :: [[0]] :: [[0]] :: List.replicate m [[0]])).2.2
      = [] :: [] :: [keyB false c] :: List.replicate m [] ∧
    (runCycles c [devB true c] []
        ([[1]] :: [[0]] :: [[0]] :: List.replicate m [[0]])).2.2
      = [] :: [] :: [] :: List.replicate m [] ∧
    ceilDiv (3 * c) c = 3 :=
  ⟨c3_run_nodedupe c hc m, c3_run_dedupe c hc m, ceil3 c hc⟩

/-- Witness for `c3_delay_amended` at cycle time 10 ms with one trailing
quiet cycle. -/
theorem c3_delay_amended_witness :
    (runCycles 10 [devB false 10] []
        ([[1]] :: [[0]] :: [[0]] :: List.replicate 1 [[0]])).2.2
      = [] :: [] :: [keyB false 10] :: List.replicate 1 [] ∧
    (runCycles 10 [devB true 10] []
        ([[1]] :: [[0]] :: [[0]] :: List.replicate 1 [[0]])).2.2
      = [] :: [] :: [] :: List.replicate 1 [] :=
  ⟨(c3_delay_amended 10 1 (by decide)).1, (c3_delay_amended 10 1 (by decide)).2.1⟩
